import Mathlib

/-!
# bydoi.go : DOI extraction, Scopus lookup, JSON and spreadsheet export

A shallow embedding of `src/bydoi.go`.

* Go strings are lists of characters (`Str`).  The program only searches for
  ASCII patterns, so on well-formed UTF-8 text the character view and Go's
  byte view agree.
* Code with effects returns its value together with the list of `Event`s it
  performed, in program order.
* What the program obtains from the outside world (the file system, the HTTP
  server, the JSON decoder and encoder of the libraries, the entity table of
  package `html`) is a field of `Env`; the general theorems hold for all `Env`,
  and `sampleEnv` is one world at which they are evaluated.
* A Go slice is `GoSlice`: the nil slice and an empty non-nil slice are
  different values, as they are for `encoding/json`.
-/

set_option autoImplicit false

namespace Bydoi

/-! ## Strings (package `strings`) -/

/-- Go `string`, as its list of characters. -/
abbrev Str := List Char

/-- `strings.HasPrefix(s, prefix)`:
`len(s) >= len(prefix) && s[:len(prefix)] == prefix`. -/
def HasPrefix (s pre : Str) : Bool :=
  decide (pre.length ≤ s.length) && decide (s.take pre.length = pre)

/-- `strings.TrimPrefix(s, prefix)`: `s[len(prefix):]` when `s` has the prefix,
`s` itself otherwise. -/
def TrimPrefix (s pre : Str) : Str :=
  if HasPrefix s pre then s.drop pre.length else s

/-- The scan of `strings.ReplaceAll` for a non-empty `old`: at each position,
from left to right, a match of `old` is replaced by `new` and the scan resumes
behind the match; any other character is copied.  The first argument bounds
the number of steps. -/
def replaceAllAux (old new : Str) : Nat → Str → Str
  | 0, s => s
  | _ + 1, [] => []
  | n + 1, c :: cs =>
    if HasPrefix (c :: cs) old then
      new ++ replaceAllAux old new n ((c :: cs).drop old.length)
    else
      c :: replaceAllAux old new n cs

/-- `strings.ReplaceAll(s, old, new)`.  An empty `old` matches before every
character and at the end of the string. -/
def ReplaceAll (s old new : Str) : Str :=
  if old = new then s
  else if old = [] then new ++ s.flatMap (fun c => c :: new)
  else replaceAllAux old new s.length s

/-- `unicode.IsSpace`: the white space characters of Unicode. -/
def IsSpace (c : Char) : Bool :=
  let n := c.toNat
  n = 0x09 || n = 0x0A || n = 0x0B || n = 0x0C || n = 0x0D || n = 0x20 ||
  n = 0x85 || n = 0xA0 || n = 0x1680 || (0x2000 ≤ n && n ≤ 0x200A) ||
  n = 0x2028 || n = 0x2029 || n = 0x202F || n = 0x205F || n = 0x3000

/-- `strings.TrimSpace(s)`: `s` without its leading and trailing white space. -/
def TrimSpace (s : Str) : Str :=
  ((s.dropWhile IsSpace).reverse.dropWhile IsSpace).reverse

/-! ## Package `html`: `UnescapeString` -/

/-- The two entity maps of package `html`, which are not part of this
repository: a name that is absent (value 0 in Go) is `none`. -/
structure HtmlTables where
  /-- Names that stand for one code point, such as `amp;` and `amp`. -/
  entity : Str → Option Char
  /-- Names that stand for two code points. -/
  entity2 : Str → Option (Char × Char)

/-- `longestEntityWithoutSemicolon` of package `html`. -/
def longestEntityWithoutSemicolon : Nat := 6

/-- `replacementTable` of package `html`: the code points that the Windows-1252
bytes 0x80 .. 0x9F stand for. -/
def replacementTable : List Nat :=
  [0x20AC, 0x0081, 0x201A, 0x0192, 0x201E, 0x2026, 0x2020, 0x2021,
   0x02C6, 0x2030, 0x0160, 0x2039, 0x0152, 0x008D, 0x017D, 0x008F,
   0x0090, 0x2018, 0x2019, 0x201C, 0x201D, 0x2022, 0x2013, 0x2014,
   0x02DC, 0x2122, 0x0161, 0x203A, 0x0153, 0x009D, 0x017E, 0x0178]

/-- Arithmetic of Go's `rune` (`int32`): the value wrapped to 32 bits, signed. -/
def wrap32 (v : Int) : Int := (v + 2 ^ 31) % 2 ^ 32 - 2 ^ 31

/-- Test `lo <= c && c <= hi` on a byte. -/
def inRange (lo hi : Char) (c : Char) : Bool :=
  decide (lo.toNat ≤ c.toNat) && decide (c.toNat ≤ hi.toNat)

/-- `utf8.EncodeRune`, read back as a character: a rune that is negative, above
U+10FFFF or a surrogate is encoded as U+FFFD. -/
def encodeRune (x : Int) : Char :=
  if x < 0 ∨ 0x10FFFF < x ∨ (0xD800 ≤ x ∧ x ≤ 0xDFFF) then Char.ofNat 0xFFFD
  else Char.ofNat x.toNat

/-- The digit loop of `unescapeEntity` for `&#...`: `s` is what is left of the
input from index `i` on, `x` the value read so far.  Returns the value and the
index behind the reference (a closing `;` is consumed). -/
def scanDigits (hex : Bool) : Str → Int → Nat → Int × Nat
  | [], x, i => (x, i)
  | c :: cs, x, i =>
    if hex then
      if inRange '0' '9' c then
        scanDigits hex cs (wrap32 (16 * x + c.toNat - ('0').toNat)) (i + 1)
      else if inRange 'a' 'f' c then
        scanDigits hex cs (wrap32 (16 * x + c.toNat - ('a').toNat + 10)) (i + 1)
      else if inRange 'A' 'F' c then
        scanDigits hex cs (wrap32 (16 * x + c.toNat - ('A').toNat + 10)) (i + 1)
      else if c = ';' then (x, i + 1) else (x, i)
    else if inRange '0' '9' c then
      scanDigits hex cs (wrap32 (10 * x + c.toNat - ('0').toNat)) (i + 1)
    else if c = ';' then (x, i + 1) else (x, i)

/-- Letters and digits: the characters of an entity name. -/
def isAlnum (c : Char) : Bool :=
  inRange 'a' 'z' c || inRange 'A' 'Z' c || inRange '0' '9' c

/-- The name loop of `unescapeEntity`: the index behind the longest run of
letters and digits, a closing `;` included. -/
def scanName : Str → Nat → Nat
  | [], i => i
  | c :: cs, i =>
    if isAlnum c then scanName cs (i + 1)
    else if c = ';' then i + 1 else i

/-- The loop `for j := maxLen; j > 1; j--` of `unescapeEntity`: the longest
prefix of the name, of length `j` with `1 < j <= maxLen`, that is an entity. -/
def findShorterEntity (T : HtmlTables) (entityName : Str) : Nat → Option (Char × Nat)
  | 0 => none
  | j + 1 =>
    if 1 < j + 1 then
      match T.entity (entityName.take (j + 1)) with
      | some x => some (x, j + 1)
      | none => findShorterEntity T entityName j
    else none

/-- `unescapeEntity` of package `html` (with `attribute = false`), on the input
`s = b[src:]` whose first character is `&`: the characters written to the
output and the number of input characters consumed. -/
def unescapeEntity (T : HtmlTables) (s : Str) : Str × Nat :=
  if s.length ≤ 1 then (s.take 1, 1)
  else if s.get? 1 = some '#' then
    if s.length ≤ 3 then (s.take 1, 1)
    else
      let hex : Bool := decide (s.get? 2 = some 'x') || decide (s.get? 2 = some 'X')
      let i0 := if hex then 3 else 2
      let r := scanDigits hex (s.drop i0) 0 i0
      if r.2 ≤ 3 then (s.take 1, 1)
      else
        let x := r.1
        let x :=
          if 0x80 ≤ x ∧ x ≤ 0x9F then (replacementTable.getD (x - 0x80).toNat 0 : Int)
          else if x = 0 ∨ (0xD800 ≤ x ∧ x ≤ 0xDFFF) ∨ 0x10FFFF < x then 0xFFFD
          else x
        ([encodeRune x], r.2)
  else
    let i := scanName (s.drop 1) 1
    let entityName := (s.take i).drop 1
    if entityName.length = 0 then (s.take i, i)
    else
      match T.entity entityName with
      | some x => ([x], i)
      | none =>
        match T.entity2 entityName with
        | some (x0, x1) => ([x0, x1], i)
        | none =>
          match findShorterEntity T entityName
              (min (entityName.length - 1) longestEntityWithoutSemicolon) with
          | some (x, j) => ([x], j + 1)
          | none => (s.take i, i)

/-- The loop of `html.UnescapeString`: text up to the next `&` is copied, at a
`&` the output of `unescapeEntity` is written and the input advances by what it
consumed.  The first argument bounds the number of steps. -/
def unescapeAux (T : HtmlTables) : Nat → Str → Str
  | 0, s => s
  | _ + 1, [] => []
  | n + 1, c :: cs =>
    if c = '&' then
      (unescapeEntity T (c :: cs)).1 ++
        unescapeAux T n ((c :: cs).drop (unescapeEntity T (c :: cs)).2)
    else c :: unescapeAux T n cs

/-- `html.UnescapeString(s)`: a string without `&` is returned as it is. -/
def UnescapeString (T : HtmlTables) (s : Str) : Str :=
  if '&' ∈ s then unescapeAux T s.length s else s

/-- The five predefined XML entities of the `entity` map of package `html`,
with and without `;` as the map has them. -/
def xmlEntities : HtmlTables where
  entity := fun name =>
    if name = "amp;".toList ∨ name = "amp".toList then some '&'
    else if name = "lt;".toList ∨ name = "lt".toList then some '<'
    else if name = "gt;".toList ∨ name = "gt".toList then some '>'
    else if name = "quot;".toList ∨ name = "quot".toList then some '"'
    else if name = "apos;".toList then some (Char.ofNat 39)
    else none
  entity2 := fun _ => none

/-! ## `replaceXmlEscapes` -/

/-- Lines 75-79 of `replaceXmlEscapes`: the five `strings.ReplaceAll` passes. -/
def replaceEscapes (input : Str) : Str :=
  let input := ReplaceAll input "\\u0026".toList "&".toList
  let input := ReplaceAll input "\\u003C".toList "<".toList
  let input := ReplaceAll input "\\u003E".toList ">".toList
  let input := ReplaceAll input "\\u0022".toList "\"".toList
  let input := ReplaceAll input "\\u0027".toList [Char.ofNat 39]
  input

/-- `replaceXmlEscapes(input)`: the five passes, then `html.UnescapeString`. -/
def replaceXmlEscapes (T : HtmlTables) (input : Str) : Str :=
  UnescapeString T (replaceEscapes input)

/-- No character reference can start in `s`: no `&` of `s` is followed by `#`,
a letter, a digit or `;`. -/
def noReference : Str → Bool
  | [] => true
  | c :: cs =>
    !(c == '&' && (match cs with
        | d :: _ => d == '#' || isAlnum d || d == ';'
        | [] => false))
      && noReference cs

/-- The anonymous struct of field `Query` (`opensearch:Query`). -/
structure ScopusQuery where
  Role : Str
  SearchTerms : Str
  StartPage : Str
  deriving DecidableEq, Inhabited

/-- An element of `SearchResults.Link`. -/
structure ScopusLink where
  Fa : Str
  Ref : Str
  Href : Str
  /-- The field `Type` of the Go struct. -/
  Type' : Str
  deriving DecidableEq, Inhabited

/-- An element of an entry's `Link`. -/
structure EntryLink where
  Fa : Str
  Ref : Str
  Href : Str
  deriving DecidableEq, Inhabited

/-- An element of an entry's `Affiliation`. -/
structure ScopusAffiliation where
  Fa : Str
  AffilName : Str
  AffiliationCity : Str
  AffiliationCountry : Str
  deriving DecidableEq, Inhabited

/-- An element of `SearchResults.Entry`. -/
structure ScopusEntry where
  Fa : Str
  Link : List EntryLink
  URL : Str
  Identifier : Str
  EID : Str
  Title : Str
  Creator : Str
  PublicationName : Str
  EISSN : Str
  Volume : Str
  IssueIdentifier : Str
  PageRange : Str
  CoverDate : Str
  CoverDisplayDate : Str
  DOI : Str
  CitedByCount : Str
  Affiliation : List ScopusAffiliation
  AggregationType : Str
  Subtype : Str
  SubtypeDescription : Str
  ArticleNumber : Str
  SourceID : Str
  OpenAccess : Str
  OpenAccessFlag : Bool
  deriving DecidableEq, Inhabited

/-- The anonymous struct of field `SearchResults` (`search-results`). -/
structure ScopusSearchResults where
  TotalResults : Str
  StartIndex : Str
  ItemsPerPage : Str
  Query : ScopusQuery
  Link : List ScopusLink
  Entry : List ScopusEntry
  deriving DecidableEq, Inhabited

/-- `ScopusResponse`: the decoded answer of the Scopus API. -/
structure ScopusResponse where
  SearchResults : ScopusSearchResults
  deriving DecidableEq, Inhabited

/-- A Go slice value: `nil` is the nil slice (the value of `var s []T`), `mk xs`
a non-nil slice with the elements `xs`. -/
inductive GoSlice (α : Type) where
  | nil
  | mk (xs : List α)
  deriving DecidableEq

/-- The elements of a slice, as `range` sees them: none for the nil slice. -/
def GoSlice.elems {α : Type} : GoSlice α → List α
  | .nil => []
  | .mk xs => xs

/-- Go's `append(s, x)`: the result is never nil. -/
def GoSlice.append {α : Type} (s : GoSlice α) (x : α) : GoSlice α :=
  .mk (s.elems ++ [x])

/-! ## The spreadsheet (package `excelize`) -/

/-- A cell reference such as `B2`, decoded: `fmt.Sprintf("B%d", 2)` is column
`B`, row `2`. -/
structure Cell where
  col : Char
  row : Nat
  deriving DecidableEq

/-- The sheet `ScopusData` of the workbook: the writes that the calls
`f.SetCellValue("ScopusData", cell, value)` have made so far, oldest first, each
with the value as it is stored. -/
abbrev Sheet := List (Cell × Str)

/-- The constant `TotalRows` of `excelize`: the last row of a sheet. -/
def TotalRows : Nat := 1048576

/-- The constant `TotalCellChars` of `excelize`: the longest text of a cell. -/
def TotalCellChars : Nat := 32767

/-- The call `f.SetCellValue("ScopusData", cell, value)` for a text value, whose
error the program discards: a reference with a row outside `1 .. TotalRows` is
refused and nothing is written; otherwise the cell gets the value, cut to its
first `TotalCellChars` characters.  The column letters the program uses, `A` to
`O`, are valid columns. -/
def SetCellValue (f : Sheet) (cell : Cell) (value : Str) : Sheet :=
  if 1 ≤ cell.row ∧ cell.row ≤ TotalRows then f ++ [(cell, value.take TotalCellChars)]
  else f

/-- The content of a cell: the value of the last write to it, `none` when the
cell was never written. -/
def GetCellValue : Sheet → Cell → Option Str
  | [], _ => none
  | (c, v) :: rest, cell =>
    match GetCellValue rest cell with
    | some w => some w
    | none => if c = cell then some v else none

/-- The number of writes to a cell. -/
def writeCount (f : Sheet) (cell : Cell) : Nat :=
  f.countP (fun w => decide (w.1 = cell))

/-! ## The outside world -/

deriving instance DecidableEq for Except

/-- What the program does to the outside world. -/
inductive Event where
  /-- Text on standard output: `fmt.Print`, `fmt.Printf`. -/
  | stdout (text : Str)
  /-- A line of the logger: `log.Printf`, `log.Fatal`, `log.Fatalf`. -/
  | logged (text : Str)
  /-- The call `os.Open(path)`. -/
  | osOpen (path : Str)
  /-- The call `http.Get(url)`. -/
  | httpGet (url : Str)
  /-- The call `ioutil.WriteFile(path, data, 0644)`. -/
  | writeFile (path : Str) (data : Str)
  /-- The call `f.SaveAs(path)` with the cells of sheet `ScopusData`. -/
  | saveAs (path : Str) (cells : Sheet)
  deriving DecidableEq

/-- What a `bufio.Scanner` over an opened file yields: the lines that
`scanner.Text()` returns, in order, and the value of `scanner.Err()` once
`scanner.Scan()` has returned false. -/
structure Scan where
  lines : List Str
  err : Option Str
  deriving DecidableEq

/-- An `http.Response`: the status code and what `ioutil.ReadAll(resp.Body)`
returns. -/
structure HttpResponse where
  StatusCode : Nat
  Body : Except Str Str
  deriving DecidableEq

/-- The outside world and the libraries the program calls. -/
structure Env where
  /-- The entity maps of package `html`. -/
  html : HtmlTables
  /-- The call `os.Open(path)` and the scan of the opened file. -/
  osOpen : Str → Except Str Scan
  /-- The call `http.Get(url)`. -/
  httpGet : Str → Except Str HttpResponse
  /-- The call `jsoniter.ConfigFastest.Unmarshal` into a zero `ScopusResponse`. -/
  unmarshal : Str → Except Str ScopusResponse
  /-- The indented JSON text of one element of the result array. -/
  marshalElem : ScopusResponse → Except Str Str
  /-- The call `ioutil.WriteFile(path, data, 0644)`: its error, if any. -/
  writeFile : Str → Str → Option Str
  /-- The call `f.NewSheet(name)`. -/
  newSheet : Str → Except Str Int
  /-- The call `f.SaveAs(path)`: its error, if any. -/
  saveAs : Str → Sheet → Option Str
  /-- The expression `filepath.Dir`. -/
  Dir : Str → Str
  /-- The expression `filepath.Base`. -/
  Base : Str → Str
  /-- The expression `filepath.Ext`. -/
  Ext : Str → Str
  /-- The expression `filepath.Join` of two elements. -/
  Join : Str → Str → Str

/-! ## `fetchScopusData` -/

/-- The constant `http.StatusOK`. -/
def StatusOK : Nat := 200

/-- The request URL that `fetchScopusData` builds with `fmt.Sprintf`. -/
def apiURL (doi apiKey : Str) : Str :=
  "https://api.elsevier.com/content/search/scopus?query=DOI(".toList ++ doi ++
    ")&apiKey=".toList ++ apiKey ++ "&httpAccept=application/json".toList

/-- `fetchScopusData(doi, apiKey)`: one `http.Get`; the result is the decoded
response or an error. -/
def fetchScopusData (env : Env) (doi apiKey : Str) :
    Except Str ScopusResponse × List Event :=
  let url := apiURL doi apiKey
  let result : Except Str ScopusResponse :=
    match env.httpGet url with
    | .error err => .error ("gagal melakukan request ke API Scopus: ".toList ++ err)
    | .ok resp =>
      if resp.StatusCode ≠ StatusOK then
        .error ("gagal mengambil data dari Scopus API, status code: ".toList ++
          (Nat.repr resp.StatusCode).toList)
      else
        match resp.Body with
        | .error err => .error ("error reading response body: ".toList ++ err)
        | .ok body =>
          let bodyStr := replaceXmlEscapes env.html body
          match env.unmarshal bodyStr with
          | .error err => .error ("error unmarshalling JSON: ".toList ++ err)
          | .ok scopusData => .ok scopusData
  (result, [Event.httpGet url])

/-! ## `parseRISFile` -/

/-- The tag of a DOI line. -/
def doiTag : Str := "DO  - ".toList

/-- One round of the loop `for scanner.Scan()` of `parseRISFile` on the line
`scanner.Text()`: the state is the slice `scopusResponses` and the events so
far. -/
def parseLine (env : Env) (apiKey : Str)
    (st : GoSlice ScopusResponse × List Event) (line : Str) :
    GoSlice ScopusResponse × List Event :=
  if HasPrefix line doiTag then
    let doi := TrimPrefix line doiTag
    let announce := Event.stdout ("Mengambil data untuk DOI: ".toList ++ doi ++ "\n".toList)
    let r := fetchScopusData env doi apiKey
    match r.1 with
    | .error err =>
      (st.1, st.2 ++ [announce] ++ r.2 ++
        [Event.logged ("Gagal mengambil data untuk DOI ".toList ++ doi ++ ": ".toList ++
          err ++ "\n".toList)])
    | .ok scopusData => (st.1.append scopusData, st.2 ++ [announce] ++ r.2)
  else st

/-- `parseRISFile(filePath, apiKey)`. -/
def parseRISFile (env : Env) (filePath apiKey : Str) :
    Except Str (GoSlice ScopusResponse) × List Event :=
  match env.osOpen filePath with
  | .error err => (.error ("gagal membuka file: ".toList ++ err), [Event.osOpen filePath])
  | .ok scanner =>
    let st := scanner.lines.foldl (parseLine env apiKey) (GoSlice.nil, [Event.osOpen filePath])
    match scanner.err with
    | some err => (.error ("gagal membaca file: ".toList ++ err), st.2)
    | none => (.ok st.1, st.2)

/-! ## `saveToJSONFile` -/

/-- `json.MarshalIndent(responses, "", "  ")` for a slice: the nil slice encodes
as `null`, an empty slice as `[]`, any other as its elements between brackets,
one per line, indented by two spaces. -/
def MarshalIndent (env : Env) : GoSlice ScopusResponse → Except Str Str
  | .nil => .ok "null".toList
  | .mk [] => .ok "[]".toList
  | .mk (r :: rs) =>
    match (r :: rs).mapM env.marshalElem with
    | .error err => .error err
    | .ok texts => .ok ("[\n  ".toList ++ ",\n  ".toList.intercalate texts ++ "\n]".toList)

/-- `saveToJSONFile(responses, outputFilePath)`: its error, if any. -/
def saveToJSONFile (env : Env) (responses : GoSlice ScopusResponse) (outputFilePath : Str) :
    Option Str × List Event :=
  match MarshalIndent env responses with
  | .error err => (some ("gagal mengonversi hasil ke JSON: ".toList ++ err), [])
  | .ok data =>
    match env.writeFile outputFilePath data with
    | some err =>
      (some ("gagal menulis file JSON: ".toList ++ err), [Event.writeFile outputFilePath data])
    | none =>
      (none, [Event.writeFile outputFilePath data,
        Event.stdout ("Data berhasil disimpan ke file: ".toList ++ outputFilePath ++
          "\n".toList)])

/-! ## `saveToExcelFile` -/

/-- The slice `headers` of `saveToExcelFile`. -/
def headers : List Str :=
  ["CoverDate".toList, "DOI".toList, "Title".toList, "Creator".toList,
   "Institution".toList, "City".toList, "Country".toList, "Journal".toList,
   "eISSN".toList, "Volume".toList, "Issue".toList, "Pages".toList,
   "OpenAccess".toList, "CitedBy".toList, "URL".toList]

/-- The loop `for i, header := range headers`, from index `i` on: the cell is
`fmt.Sprintf("%s1", string('A'+i))`. -/
def writeHeadersFrom : Nat → List Str → Sheet → Sheet
  | _, [], f => f
  | i, header :: rest, f =>
    writeHeadersFrom (i + 1) rest (SetCellValue f ⟨Char.ofNat (('A').toNat + i), 1⟩ header)

/-- The loop `for _, affiliation := range entry.Affiliation` for the row
`row = j+2+i`. -/
def writeAffiliations (row : Nat) : List ScopusAffiliation → Sheet → Sheet
  | [], f => f
  | affiliation :: rest, f =>
    let f := SetCellValue f ⟨'E', row⟩ affiliation.AffilName
    let f := SetCellValue f ⟨'F', row⟩ affiliation.AffiliationCity
    let f := SetCellValue f ⟨'G', row⟩ affiliation.AffiliationCountry
    writeAffiliations row rest f

/-- The body of the loop over the entries of response `i`, for entry `j`. -/
def writeEntry (i j : Nat) (entry : ScopusEntry) (f : Sheet) : Sheet :=
  let f := SetCellValue f ⟨'A', j + 2 + i⟩ entry.CoverDate
  let f := SetCellValue f ⟨'B', j + 2 + i⟩ entry.DOI
  let f := SetCellValue f ⟨'C', j + 2 + i⟩ entry.Title
  let f := SetCellValue f ⟨'D', j + 2 + i⟩ entry.Creator
  let f := writeAffiliations (j + 2 + i) entry.Affiliation f
  let f := SetCellValue f ⟨'H', j + 2 + i⟩ entry.PublicationName
  let f := SetCellValue f ⟨'I', j + 2 + i⟩ entry.EISSN
  let f := SetCellValue f ⟨'J', j + 2 + i⟩ entry.Volume
  let f := SetCellValue f ⟨'K', j + 2 + i⟩ entry.IssueIdentifier
  let f := SetCellValue f ⟨'L', j + 2 + i⟩ entry.PageRange
  let f := SetCellValue f ⟨'M', j + 2 + i⟩ entry.OpenAccess
  let f := SetCellValue f ⟨'N', j + 2 + i⟩ entry.CitedByCount
  let f := SetCellValue f ⟨'O', j + 2 + i⟩ entry.URL
  f

/-- The loop `for j, entry := range response.SearchResults.Entry` of response
`i`, from index `j` on. -/
def writeEntriesFrom (i : Nat) : Nat → List ScopusEntry → Sheet → Sheet
  | _, [], f => f
  | j, entry :: rest, f => writeEntriesFrom i (j + 1) rest (writeEntry i j entry f)

/-- The loop `for i, response := range responses`, from index `i` on. -/
def writeResponsesFrom : Nat → List ScopusResponse → Sheet → Sheet
  | _, [], f => f
  | i, response :: rest, f =>
    writeResponsesFrom (i + 1) rest (writeEntriesFrom i 0 response.SearchResults.Entry f)

/-- Lines 173-201 of `saveToExcelFile`: the cells of sheet `ScopusData` once
the header and the data are written, starting from the empty sheet. -/
def fillSheet (responses : GoSlice ScopusResponse) : Sheet :=
  writeResponsesFrom 0 responses.elems (writeHeadersFrom 0 headers [])

/-- `saveToExcelFile(responses, outputFilePath)`: its error, if any. -/
def saveToExcelFile (env : Env) (responses : GoSlice ScopusResponse) (outputFilePath : Str) :
    Option Str × List Event :=
  match env.newSheet "ScopusData".toList with
  | .error err => (some ("gagal membuat sheet Excel: ".toList ++ err), [])
  | .ok _ =>
    let f := fillSheet responses
    match env.saveAs outputFilePath f with
    | some err =>
      (some ("gagal menyimpan file Excel: ".toList ++ err), [Event.saveAs outputFilePath f])
    | none =>
      (none, [Event.saveAs outputFilePath f,
        Event.stdout ("Data berhasil disimpan ke file: ".toList ++ outputFilePath ++
          "\n".toList)])

/-! ## `main` -/

/-- `strings.HasSuffix(s, suffix)`. -/
def HasSuffix (s suf : Str) : Bool :=
  decide (suf.length ≤ s.length) && decide (s.drop (s.length - suf.length) = suf)

/-- `strings.TrimSuffix(s, suffix)`. -/
def TrimSuffix (s suf : Str) : Str :=
  if HasSuffix s suf then s.take (s.length - suf.length) else s

/-- The output path of `main` for an extension such as `.json`. -/
def outputFilePath (env : Env) (filePath ext : Str) : Str :=
  env.Join (env.Dir filePath) (TrimSuffix (env.Base filePath) (env.Ext filePath) ++ ext)

/-- The two prompts of `main`. -/
def prompts : List Event :=
  [Event.stdout "Masukkan path file RIS: ".toList,
   Event.stdout "Masukkan API key Scopus: ".toList]

/-- `main`, for the two lines `filePath` and `apiKey` read from standard input:
the exit status (1 after `log.Fatal` or `log.Fatalf`, 0 otherwise) and the
events. -/
def main (env : Env) (filePath apiKey : Str) : Nat × List Event :=
  if TrimSpace filePath = [] ∨ TrimSpace apiKey = [] then
    (1, prompts ++
      [Event.logged "Path file RIS dan API key Scopus tidak boleh kosong.".toList])
  else
    let parsed := parseRISFile env filePath apiKey
    match parsed.1 with
    | .error err =>
      (1, prompts ++ parsed.2 ++ [Event.logged ("Gagal memproses file RIS: ".toList ++ err)])
    | .ok scopusResponses =>
      let jsonOutputFilePath := outputFilePath env filePath ".json".toList
      let excelOutputFilePath := outputFilePath env filePath ".xlsx".toList
      let savedJSON := saveToJSONFile env scopusResponses jsonOutputFilePath
      match savedJSON.1 with
      | some err =>
        (1, prompts ++ parsed.2 ++ savedJSON.2 ++
          [Event.logged ("Gagal menyimpan hasil ke file JSON: ".toList ++ err)])
      | none =>
        let savedExcel := saveToExcelFile env scopusResponses excelOutputFilePath
        match savedExcel.1 with
        | some err =>
          (1, prompts ++ parsed.2 ++ savedJSON.2 ++ savedExcel.2 ++
            [Event.logged ("Gagal menyimpan hasil ke file Excel: ".toList ++ err)])
        | none => (0, prompts ++ parsed.2 ++ savedJSON.2 ++ savedExcel.2)

/-! ## Observations on event lists -/

/-- The URLs of the `http.Get` calls among the events, in order. -/
def requestedURLs (events : List Event) : List Str :=
  events.filterMap (fun e => match e with
    | .httpGet url => some url
    | _ => none)

/-- The paths of the `os.Open` calls among the events, in order. -/
def openedPaths (events : List Event) : List Str :=
  events.filterMap (fun e => match e with
    | .osOpen path => some path
    | _ => none)

/-- The response of a lookup that succeeded, `none` for a lookup that failed. -/
def lookup? (env : Env) (apiKey doi : Str) : Option ScopusResponse :=
  match (fetchScopusData env doi apiKey).1 with
  | .ok scopusData => some scopusData
  | .error _ => none

/-! ## The data loop, entry by entry -/

/-- The entries of response `i` from entry index `j` on, each with its two
indices, in loop order. -/
def entriesFrom (i : Nat) : Nat → List ScopusEntry → List (Nat × Nat × ScopusEntry)
  | _, [] => []
  | j, entry :: rest => (i, j, entry) :: entriesFrom i (j + 1) rest

/-- The (response index, entry index, entry) triples of the data loop from
response index `i` on, in loop order. -/
def triplesFrom : Nat → List ScopusResponse → List (Nat × Nat × ScopusEntry)
  | _, [] => []
  | i, response :: rest =>
    entriesFrom i 0 response.SearchResults.Entry ++ triplesFrom (i + 1) rest

/-- The writes of an entry outside the affiliation loop, in order, for a row
`row` within `1 .. TotalRows`: each value is cut to `TotalCellChars`
characters. -/
def fixedWrites (row : Nat) (entry : ScopusEntry) : Sheet :=
  [(⟨'A', row⟩, entry.CoverDate.take TotalCellChars),
   (⟨'B', row⟩, entry.DOI.take TotalCellChars),
   (⟨'C', row⟩, entry.Title.take TotalCellChars),
   (⟨'D', row⟩, entry.Creator.take TotalCellChars),
   (⟨'H', row⟩, entry.PublicationName.take TotalCellChars),
   (⟨'I', row⟩, entry.EISSN.take TotalCellChars),
   (⟨'J', row⟩, entry.Volume.take TotalCellChars),
   (⟨'K', row⟩, entry.IssueIdentifier.take TotalCellChars),
   (⟨'L', row⟩, entry.PageRange.take TotalCellChars),
   (⟨'M', row⟩, entry.OpenAccess.take TotalCellChars),
   (⟨'N', row⟩, entry.CitedByCount.take TotalCellChars),
   (⟨'O', row⟩, entry.URL.take TotalCellChars)]

/-- The sums `i + j` are pairwise distinct over the (response, entry) pairs of
the collection. -/
def RowsDistinct (responses : List ScopusResponse) : Prop :=
  ∀ (i j i' j' : Nat) (r r' : ScopusResponse) (e e' : ScopusEntry),
    responses[i]? = some r → r.SearchResults.Entry[j]? = some e →
    responses[i']? = some r' → r'.SearchResults.Entry[j']? = some e' →
    i + j = i' + j' → i = i' ∧ j = j'

/-! ## Sample data -/

/-- An entry with the given DOI and title, every other field zero. -/
def sampleEntry (doi title : Str) : ScopusEntry :=
  { (default : ScopusEntry) with DOI := doi, Title := title }

/-- A response with the given entries, every other field zero. -/
def sampleResponse (entries : List ScopusEntry) : ScopusResponse :=
  { SearchResults := { (default : ScopusSearchResults) with Entry := entries } }

/-- A collection of two responses: the first with three entries, the second
with one. -/
def collisionSample : GoSlice ScopusResponse :=
  .mk [sampleResponse [sampleEntry "10.1/a0".toList "a0".toList,
         sampleEntry "10.1/a1".toList "a1".toList, sampleEntry "10.1/a2".toList "a2".toList],
       sampleResponse [sampleEntry "10.1/b0".toList "b0".toList]]

/-! ## Well-formed JSON texts (RFC 8259)

A pushdown recogniser for the grammar of RFC 8259, one character at a time: the
stack holds the open containers, `true` for an object and `false` for an
array. -/

/-- The double quote. -/
def dquote : Char := Char.ofNat 34

/-- The backslash. -/
def backslash : Char := Char.ofNat 92

/-- The opening brace. -/
def lbrace : Char := Char.ofNat 123

/-- The closing brace. -/
def rbrace : Char := Char.ofNat 125

/-- Where the recogniser stands in the grammar. -/
inductive JState where
  /-- Before a value. -/
  | value
  /-- Behind `[`: before a value or `]`. -/
  | valueOrEnd
  /-- Behind the opening brace: before a member name or the closing brace. -/
  | nameOrEnd
  /-- Behind `,` in an object: before a member name. -/
  | name
  /-- Behind a member name: before `:`. -/
  | colon
  /-- Inside a string (`isName`: the string is a member name). -/
  | str (isName : Bool)
  /-- Behind a backslash inside a string. -/
  | esc (isName : Bool)
  /-- Inside `\uXXXX`, with `n` hexadecimal digits still to come. -/
  | hex (isName : Bool) (n : Nat)
  /-- Behind a complete value. -/
  | done
  /-- Behind the `-` of a number. -/
  | minus
  /-- Behind the integer part `0`. -/
  | zero
  /-- Inside an integer part that starts with `1` .. `9`. -/
  | int
  /-- Behind the decimal point. -/
  | dot
  /-- Inside the fraction digits. -/
  | frac
  /-- Behind `e` or `E`. -/
  | exp
  /-- Behind the sign of the exponent. -/
  | expSign
  /-- Inside the exponent digits. -/
  | expDigits
  /-- Inside `true`, `false` or `null`, with `rest` still to come. -/
  | lit (rest : Str)
  deriving DecidableEq

/-- JSON white space: space, tab, line feed, carriage return. -/
def jsonSpace (c : Char) : Bool :=
  c.toNat = 0x20 || c.toNat = 0x09 || c.toNat = 0x0A || c.toNat = 0x0D

/-- A hexadecimal digit. -/
def isHexDigit (c : Char) : Bool :=
  inRange '0' '9' c || inRange 'a' 'f' c || inRange 'A' 'F' c

/-- A character behind a complete value: white space, a `,` inside a container,
or the bracket that closes the innermost container. -/
def afterValue (stack : List Bool) (c : Char) : Option (JState × List Bool) :=
  if jsonSpace c then some (.done, stack)
  else
    match stack with
    | [] => none
    | true :: rest =>
      if c = ',' then some (.name, true :: rest)
      else if c = rbrace then some (.done, rest)
      else none
    | false :: rest =>
      if c = ',' then some (.value, false :: rest)
      else if c = ']' then some (.done, rest)
      else none

/-- The first character of a value. -/
def beginValue (stack : List Bool) (c : Char) : Option (JState × List Bool) :=
  if c = lbrace then some (.nameOrEnd, true :: stack)
  else if c = '[' then some (.valueOrEnd, false :: stack)
  else if c = dquote then some (.str false, stack)
  else if c = '-' then some (.minus, stack)
  else if c = '0' then some (.zero, stack)
  else if inRange '1' '9' c then some (.int, stack)
  else if c = 't' then some (.lit "rue".toList, stack)
  else if c = 'f' then some (.lit "alse".toList, stack)
  else if c = 'n' then some (.lit "ull".toList, stack)
  else none

/-- One step of the recogniser; `none` when the character is not allowed. -/
def jsonStep (st : JState) (stack : List Bool) (c : Char) : Option (JState × List Bool) :=
  match st with
  | .value => if jsonSpace c then some (.value, stack) else beginValue stack c
  | .valueOrEnd =>
    if jsonSpace c then some (.valueOrEnd, stack)
    else if c = ']' then some (.done, stack.tail)
    else beginValue stack c
  | .nameOrEnd =>
    if jsonSpace c then some (.nameOrEnd, stack)
    else if c = rbrace then some (.done, stack.tail)
    else if c = dquote then some (.str true, stack)
    else none
  | .name =>
    if jsonSpace c then some (.name, stack)
    else if c = dquote then some (.str true, stack)
    else none
  | .colon =>
    if jsonSpace c then some (.colon, stack)
    else if c = ':' then some (.value, stack)
    else none
  | .str isName =>
    if c = dquote then some (if isName then .colon else .done, stack)
    else if c = backslash then some (.esc isName, stack)
    else if c.toNat < 0x20 then none
    else some (.str isName, stack)
  | .esc isName =>
    if c = dquote ∨ c = backslash ∨ c = '/' ∨ c = 'b' ∨ c = 'f' ∨ c = 'n' ∨ c = 'r' ∨ c = 't'
    then some (.str isName, stack)
    else if c = 'u' then some (.hex isName 4, stack)
    else none
  | .hex isName n =>
    if isHexDigit c then some (if n ≤ 1 then .str isName else .hex isName (n - 1), stack)
    else none
  | .done => afterValue stack c
  | .minus =>
    if c = '0' then some (.zero, stack)
    else if inRange '1' '9' c then some (.int, stack)
    else none
  | .zero =>
    if c = '.' then some (.dot, stack)
    else if c = 'e' ∨ c = 'E' then some (.exp, stack)
    else afterValue stack c
  | .int =>
    if inRange '0' '9' c then some (.int, stack)
    else if c = '.' then some (.dot, stack)
    else if c = 'e' ∨ c = 'E' then some (.exp, stack)
    else afterValue stack c
  | .dot => if inRange '0' '9' c then some (.frac, stack) else none
  | .frac =>
    if inRange '0' '9' c then some (.frac, stack)
    else if c = 'e' ∨ c = 'E' then some (.exp, stack)
    else afterValue stack c
  | .exp =>
    if c = '+' ∨ c = '-' then some (.expSign, stack)
    else if inRange '0' '9' c then some (.expDigits, stack)
    else none
  | .expSign => if inRange '0' '9' c then some (.expDigits, stack) else none
  | .expDigits =>
    if inRange '0' '9' c then some (.expDigits, stack) else afterValue stack c
  | .lit [] => none
  | .lit (x :: rest) =>
    if c = x then some (if rest = [] then .done else .lit rest, stack) else none

/-- The run of the recogniser over a text: at the end no container is open and
a value is complete. -/
def jsonRun : JState → List Bool → Str → Bool
  | st, stack, [] =>
    stack.isEmpty &&
      (st = .done || st = .zero || st = .int || st = .frac || st = .expDigits)
  | st, stack, c :: cs =>
    match jsonStep st stack c with
    | none => false
    | some next => jsonRun next.1 next.2 cs

/-- The text is one well-formed JSON value, white space around it allowed. -/
def jsonValid (s : Str) : Bool := jsonRun .value [] s

/-! ## A sample world -/

/-- A response body whose title holds the escape `\u0022`. -/
def quotedTitleBody : Str := "\x7b\"dc:title\":\"a\\u0022b\"\x7d".toList

/-- The text `replaceXmlEscapes` makes of `quotedTitleBody`. -/
def brokenTitleBody : Str := "\x7b\"dc:title\":\"a\"b\"\x7d".toList

/-- A world with three files and one DOI the server knows: `refs.ris` has the
three lines of a record with the DOI `10.1000/xyz123`, `quoted.ris` one line with
the DOI `10.1/q`, for which the server answers `quotedTitleBody`, and
`empty.ris` has no line.  The decoder accepts the well-formed JSON texts. -/
def sampleEnv : Env where
  html := xmlEntities
  osOpen := fun path =>
    if path = "refs.ris".toList then
      .ok ⟨["TY  - JOUR".toList, "DO  - 10.1000/xyz123".toList, "ER  - ".toList], none⟩
    else if path = "quoted.ris".toList then .ok ⟨["DO  - 10.1/q".toList], none⟩
    else if path = "empty.ris".toList then .ok ⟨[], none⟩
    else .error "no such file".toList
  httpGet := fun url =>
    if url = apiURL "10.1000/xyz123".toList "KEY".toList then
      .ok ⟨200, .ok "\x7b\"search-results\":\x7b\x7d\x7d".toList⟩
    else if url = apiURL "10.1/q".toList "KEY".toList then .ok ⟨200, .ok quotedTitleBody⟩
    else .ok ⟨404, .ok []⟩
  unmarshal := fun text =>
    if jsonValid text then
      .ok (sampleResponse [sampleEntry "10.1000/xyz123".toList "Example Title".toList])
    else .error "invalid JSON".toList
  marshalElem := fun _ => .ok "\x7b\x7d".toList
  writeFile := fun _ _ => none
  newSheet := fun _ => .ok 1
  saveAs := fun _ _ => none
  Dir := fun _ => ".".toList
  Base := fun path => path
  Ext := fun path => path.drop (path.length - 4)
  Join := fun dir file => dir ++ "/".toList ++ file

/-- An entry with two affiliations. -/
def twoAffiliations : ScopusEntry :=
  { sampleEntry "10.1/a0".toList "a0".toList with
    Affiliation :=
      [{ Fa := [], AffilName := "First".toList, AffiliationCity := "Bonn".toList,
         AffiliationCountry := "Germany".toList },
       { Fa := [], AffilName := "Second".toList, AffiliationCity := "Lyon".toList,
         AffiliationCountry := "France".toList }] }

/-- A collection of one response with two entries. -/
def twoEntries : GoSlice ScopusResponse :=
  .mk [sampleResponse [sampleEntry "10.1000/xyz123".toList "Example Title".toList,
         sampleEntry "10.1000/xyz124".toList "Second Title".toList]]

/-- A text of 40000 characters. -/
def longText : Str := List.replicate 40000 'x'

/-- A collection of one response with one entry whose title is `longText`. -/
def longTitle : GoSlice ScopusResponse :=
  .mk [sampleResponse [sampleEntry "10.1/long".toList longText]]

/-- An entry with one affiliation whose name is `longText`. -/
def longAffiliation : ScopusEntry :=
  { sampleEntry "10.1/long".toList "t".toList with
    Affiliation :=
      [{ Fa := [], AffilName := longText, AffiliationCity := "Bonn".toList,
         AffiliationCountry := "Germany".toList }] }

/-! # Theorems -/

/-! ## Strings -/

theorem hasPrefix_iff (s pre : Str) : HasPrefix s pre = true ↔ pre <+: s := by
  unfold HasPrefix
  rw [List.prefix_iff_eq_take]
  constructor
  · intro h
    simp only [Bool.and_eq_true, decide_eq_true_eq] at h
    exact h.2.symm
  · intro h
    simp only [Bool.and_eq_true, decide_eq_true_eq]
    refine ⟨?_, h.symm⟩
    have := congrArg List.length h
    simp only [List.length_take] at this
    omega

theorem trimPrefix_eq_drop (s pre : Str) (h : pre <+: s) :
    TrimPrefix s pre = s.drop pre.length := by
  unfold TrimPrefix
  rw [(hasPrefix_iff s pre).2 h]
  rfl

/-! ## `parseRISFile` -/

theorem requestedURLs_append (a b : List Event) :
    requestedURLs (a ++ b) = requestedURLs a ++ requestedURLs b := by
  unfold requestedURLs
  exact List.filterMap_append _ _ _

theorem fetchScopusData_events (env : Env) (doi apiKey : Str) :
    (fetchScopusData env doi apiKey).2 = [Event.httpGet (apiURL doi apiKey)] := rfl

theorem apiURL_injective (apiKey doi doi' : Str)
    (h : apiURL doi apiKey = apiURL doi' apiKey) : doi = doi' := by
  unfold apiURL at h
  simp only [List.append_assoc] at h
  exact List.append_cancel_right (List.append_cancel_left h)

theorem parseLine_of_tag (env : Env) (apiKey : Str) (st : GoSlice ScopusResponse × List Event)
    (line : Str) (h : doiTag <+: line) :
    (parseLine env apiKey st line).1.elems
        = st.1.elems ++ (lookup? env apiKey (line.drop 6)).toList ∧
      requestedURLs (parseLine env apiKey st line).2
        = requestedURLs st.2 ++ [apiURL (line.drop 6) apiKey] := by
  have hp : HasPrefix line doiTag = true := (hasPrefix_iff _ _).2 h
  have ht : TrimPrefix line doiTag = line.drop 6 := trimPrefix_eq_drop _ _ h
  unfold parseLine lookup?
  simp only [hp, if_true, ht]
  cases hf : (fetchScopusData env (List.drop 6 line) apiKey).1 with
  | error err =>
    simp [requestedURLs_append, fetchScopusData_events, requestedURLs]
  | ok r =>
    simp [requestedURLs_append, fetchScopusData_events, requestedURLs, GoSlice.append,
      GoSlice.elems]

theorem parseLine_of_not_tag (env : Env) (apiKey : Str)
    (st : GoSlice ScopusResponse × List Event) (line : Str) (h : ¬ doiTag <+: line) :
    parseLine env apiKey st line = st := by
  have hp : HasPrefix line doiTag = false := by
    rw [← Bool.not_eq_true, hasPrefix_iff]
    exact h
  unfold parseLine
  simp [hp]

theorem parseLoop_spec (env : Env) (apiKey : Str) (lines : List Str) :
    ∀ st : GoSlice ScopusResponse × List Event,
      (lines.foldl (parseLine env apiKey) st).1.elems
          = st.1.elems ++ lines.filterMap (fun line =>
              if doiTag <+: line then lookup? env apiKey (line.drop 6) else none) ∧
        requestedURLs (lines.foldl (parseLine env apiKey) st).2
          = requestedURLs st.2 ++ (lines.filterMap (fun line =>
              if doiTag <+: line then some (line.drop 6) else none)).map
                (fun doi => apiURL doi apiKey) := by
  induction lines with
  | nil => intro st; simp
  | cons line rest ih =>
    intro st
    rw [List.foldl_cons]
    obtain ⟨ih1, ih2⟩ := ih (parseLine env apiKey st line)
    rw [ih1, ih2]
    by_cases h : doiTag <+: line
    · obtain ⟨h1, h2⟩ := parseLine_of_tag env apiKey st line h
      rw [h1, h2]
      cases hl : lookup? env apiKey (List.drop 6 line) <;>
        simp [List.filterMap_cons, h, hl]
    · rw [parseLine_of_not_tag env apiKey st line h]
      simp [List.filterMap_cons, h]

theorem parseRISFile_events (env : Env) (filePath apiKey : Str) (scanner : Scan)
    (hopen : env.osOpen filePath = .ok scanner) :
    (parseRISFile env filePath apiKey).2
      = (scanner.lines.foldl (parseLine env apiKey) (GoSlice.nil, [Event.osOpen filePath])).2 := by
  unfold parseRISFile
  rw [hopen]
  dsimp only
  cases scanner.err <;> rfl

/-- C1. The lookups of `parseRISFile` are, in file order, those of the remainders
behind the six characters `DO  - ` of the lines that start with this tag, each
remainder unmodified; no other line is looked up, so there are as many lookups
as lines with the tag, and none for a file without lines. -/
theorem parseRISFile_lookups (env : Env) (filePath apiKey : Str) (scanner : Scan)
    (hopen : env.osOpen filePath = .ok scanner) :
    requestedURLs (parseRISFile env filePath apiKey).2
        = (scanner.lines.filterMap (fun line =>
            if doiTag <+: line then some (line.drop 6) else none)).map
              (fun doi => apiURL doi apiKey) ∧
      (requestedURLs (parseRISFile env filePath apiKey).2).length
        = scanner.lines.countP (fun line => decide (doiTag <+: line)) ∧
      (scanner.lines = [] → requestedURLs (parseRISFile env filePath apiKey).2 = []) := by
  have key : requestedURLs (parseRISFile env filePath apiKey).2
      = (scanner.lines.filterMap (fun line =>
          if doiTag <+: line then some (line.drop 6) else none)).map
            (fun doi => apiURL doi apiKey) := by
    rw [parseRISFile_events env filePath apiKey scanner hopen,
      (parseLoop_spec env apiKey scanner.lines (GoSlice.nil, [Event.osOpen filePath])).2]
    rfl
  refine ⟨key, ?_, ?_⟩
  · rw [key, List.length_map]
    generalize scanner.lines = lines
    induction lines with
    | nil => rfl
    | cons line rest ih =>
      by_cases h : doiTag <+: line
      · simp only [List.filterMap_cons, List.countP_cons, h, if_true, decide_True,
          List.length_cons, ih]
      · simp only [List.filterMap_cons, List.countP_cons, h, if_false, decide_False, ih]
        simp
  · intro hnil
    rw [key, hnil]
    rfl

theorem parseLine_nil_or_nonempty (env : Env) (apiKey : Str)
    (st : GoSlice ScopusResponse × List Event) (line : Str)
    (h : st.1 = GoSlice.nil ∨ st.1.elems ≠ []) :
    (parseLine env apiKey st line).1 = GoSlice.nil ∨
      (parseLine env apiKey st line).1.elems ≠ [] := by
  unfold parseLine
  split
  · dsimp only
    split
    · exact h
    · right
      simp [GoSlice.append, GoSlice.elems]
  · exact h

theorem parseLoop_nil_or_nonempty (env : Env) (apiKey : Str) (lines : List Str) :
    ∀ st : GoSlice ScopusResponse × List Event,
      (st.1 = GoSlice.nil ∨ st.1.elems ≠ []) →
      (lines.foldl (parseLine env apiKey) st).1 = GoSlice.nil ∨
        (lines.foldl (parseLine env apiKey) st).1.elems ≠ [] := by
  induction lines with
  | nil => intro st h; exact h
  | cons line rest ih =>
    intro st h
    rw [List.foldl_cons]
    exact ih _ (parseLine_nil_or_nonempty env apiKey st line h)

theorem parseRISFile_ok_iff (env : Env) (filePath apiKey : Str)
    (responses : GoSlice ScopusResponse) :
    (parseRISFile env filePath apiKey).1 = .ok responses ↔
      ∃ lines, env.osOpen filePath = .ok ⟨lines, none⟩ ∧
        responses = (lines.foldl (parseLine env apiKey)
          (GoSlice.nil, [Event.osOpen filePath])).1 := by
  unfold parseRISFile
  cases hopen : env.osOpen filePath with
  | error err => simp
  | ok scanner =>
    obtain ⟨lines, err⟩ := scanner
    cases err with
    | some e => simp
    | none =>
      simp only [Except.ok.injEq, Scan.mk.injEq, and_true]
      constructor
      · intro h
        exact ⟨lines, rfl, h.symm⟩
      · rintro ⟨lines2, rfl, h⟩
        exact h.symm

/-- C2. When the file opens and the scan ends without a read error,
`parseRISFile` succeeds and returns exactly the responses of the lookups that
succeeded, one per tagged line, in file order: a lookup that fails adds nothing
and does not stop the lookups of the lines behind it, and the collection is
empty when no lookup succeeds. -/
theorem parseRISFile_collects (env : Env) (filePath apiKey : Str) (lines : List Str)
    (hopen : env.osOpen filePath = .ok ⟨lines, none⟩) :
    ∃ responses : GoSlice ScopusResponse,
      (parseRISFile env filePath apiKey).1 = .ok responses ∧
      responses.elems = lines.filterMap (fun line =>
        if doiTag <+: line then lookup? env apiKey (line.drop 6) else none) ∧
      requestedURLs (parseRISFile env filePath apiKey).2
        = (lines.filterMap (fun line =>
            if doiTag <+: line then some (line.drop 6) else none)).map
              (fun doi => apiURL doi apiKey) ∧
      ((∀ line ∈ lines, doiTag <+: line → lookup? env apiKey (line.drop 6) = none) →
        responses.elems = []) := by
  have hspec := parseLoop_spec env apiKey lines (GoSlice.nil, [Event.osOpen filePath])
  have helems : (lines.foldl (parseLine env apiKey)
      (GoSlice.nil, [Event.osOpen filePath])).1.elems
      = lines.filterMap (fun line =>
        if doiTag <+: line then lookup? env apiKey (line.drop 6) else none) := by
    rw [hspec.1]
    rfl
  refine ⟨(lines.foldl (parseLine env apiKey) (GoSlice.nil, [Event.osOpen filePath])).1,
    ?_, helems, ?_, ?_⟩
  · exact (parseRISFile_ok_iff env filePath apiKey _).2 ⟨lines, hopen, rfl⟩
  · rw [parseRISFile_events env filePath apiKey ⟨lines, none⟩ hopen, hspec.2]
    rfl
  · intro hall
    rw [helems, List.filterMap_eq_nil_iff]
    intro line hline
    by_cases h : doiTag <+: line
    · simp only [h, if_true]
      exact hall line hline h
    · simp only [h, if_false]

/-! ## `saveToJSONFile` -/

theorem parseRISFile_empty_is_nil (env : Env) (filePath apiKey : Str)
    (responses : GoSlice ScopusResponse)
    (hparse : (parseRISFile env filePath apiKey).1 = .ok responses)
    (hempty : responses.elems = []) : responses = GoSlice.nil := by
  obtain ⟨lines, -, rfl⟩ := (parseRISFile_ok_iff env filePath apiKey responses).1 hparse
  rcases parseLoop_nil_or_nonempty env apiKey lines (GoSlice.nil, [Event.osOpen filePath])
    (Or.inl rfl) with h | h
  · exact h
  · exact absurd hempty h

/-- C4 (the code at the claim). Whenever `parseRISFile` returns a collection
without responses, the value it returns is the nil slice, `json.MarshalIndent`
encodes it as the four characters `null`, and that text, not `[]`, is what
`saveToJSONFile` passes to `ioutil.WriteFile`. -/
theorem saveToJSONFile_empty_writes_null (env : Env) (filePath apiKey outputPath : Str)
    (responses : GoSlice ScopusResponse)
    (hparse : (parseRISFile env filePath apiKey).1 = .ok responses)
    (hempty : responses.elems = []) :
    MarshalIndent env responses = .ok "null".toList ∧
      (saveToJSONFile env responses outputPath).2.head?
        = some (Event.writeFile outputPath "null".toList) ∧
      "null".toList ≠ "[]".toList := by
  have hnil := parseRISFile_empty_is_nil env filePath apiKey responses hparse hempty
  subst hnil
  refine ⟨rfl, ?_, by decide⟩
  unfold saveToJSONFile
  simp only [MarshalIndent]
  cases env.writeFile outputPath "null".toList <;> rfl

/-! ## `main` -/

theorem trimSpace_eq_nil_iff (s : Str) : TrimSpace s = [] ↔ ∀ c ∈ s, IsSpace c = true := by
  unfold TrimSpace
  rw [List.reverse_eq_nil_iff, List.dropWhile_eq_nil_iff]
  constructor
  · intro h
    have hd : s.dropWhile IsSpace = [] := by
      cases hcase : s.dropWhile IsSpace with
      | nil => rfl
      | cons c rest =>
        exfalso
        have hne : s.dropWhile IsSpace ≠ [] := by rw [hcase]; exact List.cons_ne_nil _ _
        have hnot := List.head_dropWhile_not IsSpace s hne
        have hmem : (s.dropWhile IsSpace).head hne ∈ (s.dropWhile IsSpace).reverse :=
          List.mem_reverse.2 (List.head_mem hne)
        rw [h _ hmem] at hnot
        exact absurd hnot (by decide)
    exact List.dropWhile_eq_nil_iff.1 hd
  · intro h c hc
    rw [List.dropWhile_eq_nil_iff.2 h] at hc
    exact absurd hc (List.not_mem_nil c)

theorem openedPaths_append (a b : List Event) :
    openedPaths (a ++ b) = openedPaths a ++ openedPaths b := by
  unfold openedPaths
  exact List.filterMap_append _ _ _

theorem parseLine_events (env : Env) (apiKey : Str)
    (st : GoSlice ScopusResponse × List Event) (line : Str) :
    ∃ more, (parseLine env apiKey st line).2 = st.2 ++ more := by
  unfold parseLine
  split
  · dsimp only
    split
    · exact ⟨_, by simp only [List.append_assoc]; rfl⟩
    · exact ⟨_, by simp only [List.append_assoc]; rfl⟩
  · exact ⟨[], (List.append_nil _).symm⟩

theorem parseLoop_events (env : Env) (apiKey : Str) (lines : List Str) :
    ∀ st : GoSlice ScopusResponse × List Event,
      ∃ more, (lines.foldl (parseLine env apiKey) st).2 = st.2 ++ more := by
  induction lines with
  | nil => intro st; exact ⟨[], (List.append_nil _).symm⟩
  | cons line rest ih =>
    intro st
    rw [List.foldl_cons]
    obtain ⟨more1, h1⟩ := parseLine_events env apiKey st line
    obtain ⟨more2, h2⟩ := ih (parseLine env apiKey st line)
    exact ⟨more1 ++ more2, by rw [h2, h1, List.append_assoc]⟩

theorem parseRISFile_opens (env : Env) (filePath apiKey : Str) :
    ∃ more, (parseRISFile env filePath apiKey).2 = Event.osOpen filePath :: more := by
  cases hopen : env.osOpen filePath with
  | error err =>
    refine ⟨[], ?_⟩
    unfold parseRISFile
    rw [hopen]
  | ok scanner =>
    rw [parseRISFile_events env filePath apiKey scanner hopen]
    obtain ⟨more, h⟩ := parseLoop_events env apiKey scanner.lines
      (GoSlice.nil, [Event.osOpen filePath])
    exact ⟨more, by rw [h]; rfl⟩

/-- C8. When the path or the API key is blank (every character of it is white
space, which is when `strings.TrimSpace` leaves nothing), `main` ends with
status 1 after the two prompts and the fatal log line: no file is opened and no
HTTP request is issued.  When neither is blank, the events of `main` are the
prompts followed by those of `parseRISFile` on the untrimmed path and key, which
start with the opening of that path. -/
theorem main_blank_or_parse (env : Env) (filePath apiKey : Str) :
    (((∀ c ∈ filePath, IsSpace c = true) ∨ (∀ c ∈ apiKey, IsSpace c = true)) →
      (main env filePath apiKey).1 = 1 ∧
      (main env filePath apiKey).2 = prompts ++
        [Event.logged "Path file RIS dan API key Scopus tidak boleh kosong.".toList] ∧
      openedPaths (main env filePath apiKey).2 = [] ∧
      requestedURLs (main env filePath apiKey).2 = []) ∧
    (¬ ((∀ c ∈ filePath, IsSpace c = true) ∨ (∀ c ∈ apiKey, IsSpace c = true)) →
      (∃ rest, (main env filePath apiKey).2
        = prompts ++ (parseRISFile env filePath apiKey).2 ++ rest) ∧
      (∃ more, (parseRISFile env filePath apiKey).2 = Event.osOpen filePath :: more)) := by
  rw [← trimSpace_eq_nil_iff, ← trimSpace_eq_nil_iff]
  constructor
  · intro h
    have hm : main env filePath apiKey = (1, prompts ++
        [Event.logged "Path file RIS dan API key Scopus tidak boleh kosong.".toList]) := by
      unfold main
      rw [if_pos h]
    rw [hm]
    exact ⟨rfl, rfl, rfl, rfl⟩
  · intro h
    refine ⟨?_, parseRISFile_opens env filePath apiKey⟩
    unfold main
    rw [if_neg h]
    dsimp only
    split
    · exact ⟨_, rfl⟩
    · split
      · exact ⟨_, by rw [List.append_assoc, List.append_assoc]⟩
      · split
        · exact ⟨_, by simp only [List.append_assoc]; rfl⟩
        · exact ⟨_, by simp only [List.append_assoc]; rfl⟩

/-! ## The sheet -/

theorem getCellValue_append (a b : Sheet) (cell : Cell) :
    GetCellValue (a ++ b) cell =
      match GetCellValue b cell with
      | some w => some w
      | none => GetCellValue a cell := by
  induction a with
  | nil =>
    simp only [List.nil_append, GetCellValue]
    cases GetCellValue b cell <;> rfl
  | cons w rest ih =>
    obtain ⟨c, v⟩ := w
    show GetCellValue ((c, v) :: (rest ++ b)) cell = _
    rw [GetCellValue, ih]
    cases GetCellValue b cell <;> simp [GetCellValue]

theorem getCellValue_eq_none (f : Sheet) (cell : Cell) (h : ∀ w ∈ f, w.1 ≠ cell) :
    GetCellValue f cell = none := by
  induction f with
  | nil => rfl
  | cons w rest ih =>
    obtain ⟨c, v⟩ := w
    have hc : c ≠ cell := h (c, v) (List.mem_cons_self _ _)
    simp only [GetCellValue, ih (fun w hw => h w (List.mem_cons_of_mem _ hw)), if_neg hc]

theorem writeCount_append (a b : Sheet) (cell : Cell) :
    writeCount (a ++ b) cell = writeCount a cell + writeCount b cell := by
  unfold writeCount
  exact List.countP_append _ _ _

theorem writeCount_eq_zero (f : Sheet) (cell : Cell) (h : ∀ w ∈ f, w.1 ≠ cell) :
    writeCount f cell = 0 := by
  unfold writeCount
  rw [List.countP_eq_zero]
  intro w hw
  simpa using h w hw

theorem setCellValue_append (f : Sheet) (cell : Cell) (value : Str) :
    SetCellValue f cell value = f ++ SetCellValue [] cell value := by
  unfold SetCellValue
  split <;> simp

theorem setCellValue_of_valid (f : Sheet) (col : Char) (row : Nat) (value : Str)
    (h : 1 ≤ row ∧ row ≤ TotalRows) :
    SetCellValue f ⟨col, row⟩ value = f ++ [(⟨col, row⟩, value.take TotalCellChars)] :=
  if_pos h

theorem setCellValue_of_invalid (f : Sheet) (col : Char) (row : Nat) (value : Str)
    (h : ¬ (1 ≤ row ∧ row ≤ TotalRows)) : SetCellValue f ⟨col, row⟩ value = f :=
  if_neg h

theorem mem_setCellValue (cell : Cell) (value : Str) (w : Cell × Str)
    (h : w ∈ SetCellValue [] cell value) :
    w = (cell, value.take TotalCellChars) ∧ 1 ≤ cell.row ∧ cell.row ≤ TotalRows := by
  unfold SetCellValue at h
  split at h
  · rename_i hv
    simp only [List.nil_append, List.mem_singleton] at h
    exact ⟨h, hv⟩
  · exact absurd h (List.not_mem_nil w)

theorem writeHeadersFrom_append (hs : List Str) :
    ∀ (i : Nat) (f : Sheet), writeHeadersFrom i hs f = f ++ writeHeadersFrom i hs [] := by
  induction hs with
  | nil => intro i f; simp [writeHeadersFrom]
  | cons h rest ih =>
    intro i f
    simp only [writeHeadersFrom]
    rw [ih (i + 1) (SetCellValue f _ _), ih (i + 1) (SetCellValue [] _ _),
      setCellValue_append f, List.append_assoc]

theorem writeAffiliations_append (row : Nat) (affs : List ScopusAffiliation) :
    ∀ f : Sheet, writeAffiliations row affs f = f ++ writeAffiliations row affs [] := by
  induction affs with
  | nil => intro f; simp [writeAffiliations]
  | cons a rest ih =>
    intro f
    simp only [writeAffiliations]
    rw [ih (SetCellValue _ _ _), ih (SetCellValue (SetCellValue (SetCellValue [] _ _) _ _) _ _),
      setCellValue_append (SetCellValue (SetCellValue f _ _) _ _),
      setCellValue_append (SetCellValue f _ _), setCellValue_append f,
      setCellValue_append (SetCellValue (SetCellValue [] _ _) _ _),
      setCellValue_append (SetCellValue [] _ _)]
    simp only [List.append_assoc]

theorem writeAffiliations_of_invalid (row : Nat) (affs : List ScopusAffiliation)
    (h : ¬ (1 ≤ row ∧ row ≤ TotalRows)) :
    ∀ f : Sheet, writeAffiliations row affs f = f := by
  induction affs with
  | nil => intro f; rfl
  | cons a rest ih =>
    intro f
    simp only [writeAffiliations, setCellValue_of_invalid _ _ _ _ h]
    exact ih f

theorem writeAffiliations_snoc (row : Nat) (affs : List ScopusAffiliation)
    (a : ScopusAffiliation) (h : 1 ≤ row ∧ row ≤ TotalRows) :
    writeAffiliations row (affs ++ [a]) [] = writeAffiliations row affs [] ++
      [(⟨'E', row⟩, a.AffilName.take TotalCellChars),
       (⟨'F', row⟩, a.AffiliationCity.take TotalCellChars),
       (⟨'G', row⟩, a.AffiliationCountry.take TotalCellChars)] := by
  induction affs with
  | nil => simp [writeAffiliations, setCellValue_of_valid _ _ _ _ h]
  | cons b rest ih =>
    show writeAffiliations row (b :: (rest ++ [a])) [] = _
    rw [writeAffiliations, writeAffiliations_append row (rest ++ [a]), ih]
    conv_rhs => rw [writeAffiliations, writeAffiliations_append row rest]
    simp only [List.append_assoc]

theorem writeAffiliations_cells (row : Nat) (affs : List ScopusAffiliation) :
    ∀ w ∈ writeAffiliations row affs [],
      (w.1.col = 'E' ∨ w.1.col = 'F' ∨ w.1.col = 'G') ∧ w.1.row = row := by
  induction affs with
  | nil => intro w hw; simp [writeAffiliations] at hw
  | cons a rest ih =>
    intro w hw
    by_cases h : 1 ≤ row ∧ row ≤ TotalRows
    · simp only [writeAffiliations, setCellValue_of_valid _ _ _ _ h] at hw
      rw [writeAffiliations_append] at hw
      simp only [List.nil_append, List.append_assoc, List.cons_append, List.mem_cons,
        List.mem_append, List.mem_nil_iff, false_or] at hw
      rcases hw with rfl | rfl | rfl | hw
      · simp
      · simp
      · simp
      · exact ih w hw
    · rw [writeAffiliations_of_invalid row _ h] at hw
      exact absurd hw (List.not_mem_nil w)

theorem writeEntry_eq (i j : Nat) (entry : ScopusEntry) (f : Sheet)
    (h : 1 ≤ j + 2 + i ∧ j + 2 + i ≤ TotalRows) :
    writeEntry i j entry f = f ++ ((fixedWrites (j + 2 + i) entry).take 4 ++
      writeAffiliations (j + 2 + i) entry.Affiliation [] ++
      (fixedWrites (j + 2 + i) entry).drop 4) := by
  simp only [writeEntry, setCellValue_of_valid _ _ _ _ h, fixedWrites]
  rw [writeAffiliations_append]
  simp

theorem writeEntry_of_invalid (i j : Nat) (entry : ScopusEntry) (f : Sheet)
    (h : ¬ (1 ≤ j + 2 + i ∧ j + 2 + i ≤ TotalRows)) : writeEntry i j entry f = f := by
  simp only [writeEntry, setCellValue_of_invalid _ _ _ _ h,
    writeAffiliations_of_invalid _ _ h]

theorem writeEntry_append (i j : Nat) (entry : ScopusEntry) (f : Sheet) :
    writeEntry i j entry f = f ++ writeEntry i j entry [] := by
  by_cases h : 1 ≤ j + 2 + i ∧ j + 2 + i ≤ TotalRows
  · rw [writeEntry_eq i j entry f h, writeEntry_eq i j entry [] h]
    simp
  · rw [writeEntry_of_invalid i j entry f h, writeEntry_of_invalid i j entry [] h]
    simp

theorem writeEntriesFrom_eq (i : Nat) (es : List ScopusEntry) :
    ∀ (j : Nat) (f : Sheet), writeEntriesFrom i j es f
      = f ++ (entriesFrom i j es).flatMap (fun t => writeEntry t.1 t.2.1 t.2.2 []) := by
  induction es with
  | nil => intro j f; simp [writeEntriesFrom, entriesFrom]
  | cons e rest ih =>
    intro j f
    simp only [writeEntriesFrom, entriesFrom, List.flatMap_cons]
    rw [ih (j + 1), writeEntry_append]
    simp

theorem writeResponsesFrom_eq (rs : List ScopusResponse) :
    ∀ (i : Nat) (f : Sheet), writeResponsesFrom i rs f
      = f ++ (triplesFrom i rs).flatMap (fun t => writeEntry t.1 t.2.1 t.2.2 []) := by
  induction rs with
  | nil => intro i f; simp [writeResponsesFrom, triplesFrom]
  | cons r rest ih =>
    intro i f
    simp only [writeResponsesFrom, triplesFrom, List.flatMap_append]
    rw [ih (i + 1), writeEntriesFrom_eq]
    simp

theorem writeEntry_rows (i j : Nat) (entry : ScopusEntry) :
    ∀ w ∈ writeEntry i j entry [], w.1.row = j + 2 + i ∧ w.1.row ≤ TotalRows := by
  intro w hw
  by_cases h : 1 ≤ j + 2 + i ∧ j + 2 + i ≤ TotalRows
  · have hrow : w.1.row = j + 2 + i := by
      rw [writeEntry_eq i j entry [] h] at hw
      simp only [List.nil_append, List.mem_append] at hw
      rcases hw with (hw | hw) | hw
      · simp only [fixedWrites, List.take_succ_cons, List.take_zero, List.mem_cons,
          List.mem_nil_iff, or_false] at hw
        rcases hw with rfl | rfl | rfl | rfl <;> rfl
      · exact (writeAffiliations_cells _ _ w hw).2
      · simp only [fixedWrites, List.drop_succ_cons, List.drop_zero, List.mem_cons,
          List.mem_nil_iff, or_false] at hw
        rcases hw with rfl | rfl | rfl | rfl | rfl | rfl | rfl | rfl <;> rfl
    exact ⟨hrow, hrow ▸ h.2⟩
  · rw [writeEntry_of_invalid i j entry [] h] at hw
    exact absurd hw (List.not_mem_nil w)

theorem fixedWrites_split (row : Nat) (entry : ScopusEntry) :
    fixedWrites row entry = (fixedWrites row entry).take 4 ++ (fixedWrites row entry).drop 4 :=
  (List.take_append_drop 4 _).symm

theorem writeAffiliations_get_none (row : Nat) (affs : List ScopusAffiliation) (cell : Cell)
    (hcol : cell.col ≠ 'E' ∧ cell.col ≠ 'F' ∧ cell.col ≠ 'G') :
    ∀ w ∈ writeAffiliations row affs [], w.1 ≠ cell := by
  intro w hw heq
  have h := (writeAffiliations_cells row affs w hw).1
  rw [heq] at h
  rcases h with h | h | h
  · exact hcol.1 h
  · exact hcol.2.1 h
  · exact hcol.2.2 h

theorem writeEntry_get (i j : Nat) (entry : ScopusEntry) (cell : Cell)
    (hrow : 1 ≤ j + 2 + i ∧ j + 2 + i ≤ TotalRows)
    (hcol : cell.col ≠ 'E' ∧ cell.col ≠ 'F' ∧ cell.col ≠ 'G') :
    GetCellValue (writeEntry i j entry []) cell
        = GetCellValue (fixedWrites (j + 2 + i) entry) cell ∧
      writeCount (writeEntry i j entry []) cell
        = writeCount (fixedWrites (j + 2 + i) entry) cell := by
  have hnone := writeAffiliations_get_none (j + 2 + i) entry.Affiliation cell hcol
  constructor
  · rw [writeEntry_eq i j entry [] hrow, List.nil_append, getCellValue_append,
      getCellValue_append, getCellValue_eq_none _ _ hnone]
    conv_rhs => rw [fixedWrites_split, getCellValue_append]
  · rw [writeEntry_eq i j entry [] hrow, List.nil_append, writeCount_append,
      writeCount_append, writeCount_eq_zero _ _ hnone]
    conv_rhs => rw [fixedWrites_split, writeCount_append]
    rfl

theorem writeEntry_affiliation_cells (i j : Nat) (entry : ScopusEntry) (f : Sheet)
    (last : ScopusAffiliation) (hlast : entry.Affiliation.getLast? = some last)
    (hrow : 1 ≤ j + 2 + i ∧ j + 2 + i ≤ TotalRows) :
    GetCellValue (writeEntry i j entry f) ⟨'E', j + 2 + i⟩
        = some (last.AffilName.take TotalCellChars) ∧
      GetCellValue (writeEntry i j entry f) ⟨'F', j + 2 + i⟩
        = some (last.AffiliationCity.take TotalCellChars) ∧
      GetCellValue (writeEntry i j entry f) ⟨'G', j + 2 + i⟩
        = some (last.AffiliationCountry.take TotalCellChars) := by
  have hsplit : entry.Affiliation = entry.Affiliation.dropLast ++ [last] :=
    (List.dropLast_append_getLast? last hlast).symm
  rw [writeEntry_eq i j entry f hrow, hsplit, writeAffiliations_snoc _ _ _ hrow]
  refine ⟨?_, ?_, ?_⟩ <;>
    simp [getCellValue_append, fixedWrites, GetCellValue]

theorem length_longText : longText.length = 40000 :=
  List.length_replicate 40000 'x'

theorem take_longText_ne : longText.take TotalCellChars ≠ longText := by
  intro h
  have hlen := congrArg List.length h
  rw [List.length_take, length_longText] at hlen
  unfold TotalCellChars at hlen
  omega

/-- C7 (as stated, refuted). The entry `longAffiliation` has one affiliation,
whose name has 40000 characters; once the entry is written to row 2, E2 holds
the first 32767 characters of the name, not the name. -/
theorem writeEntry_long_affiliation :
    longAffiliation.Affiliation.getLast?.map (fun a => a.AffilName) = some longText ∧
    longText.length = 40000 ∧
    GetCellValue (writeEntry 0 0 longAffiliation []) ⟨'E', 2⟩ = some (longText.take 32767) ∧
    GetCellValue (writeEntry 0 0 longAffiliation []) ⟨'E', 2⟩ ≠ some longText := by
  have h := (writeEntry_affiliation_cells 0 0 longAffiliation []
    { Fa := [], AffilName := longText, AffiliationCity := "Bonn".toList,
      AffiliationCountry := "Germany".toList } rfl (by decide)).1
  refine ⟨rfl, length_longText, h, ?_⟩
  rw [h]
  intro heq
  exact take_longText_ne (Option.some.inj heq)

/-- C7 (amended). After `saveToExcelFile` has written an entry with at least
one affiliation to a row `j + i + 2` that is at most 1048576 (whatever the sheet
held before), the cells E, F and G of that row hold the name, city and country
of the last affiliation of the entry's list, each cut to its first 32767
characters: nothing of the earlier affiliations is left in them.  An entry whose
row is above 1048576 writes nothing. -/
theorem writeEntry_last_affiliation (i j : Nat) (entry : ScopusEntry) (f : Sheet)
    (last : ScopusAffiliation) (hlast : entry.Affiliation.getLast? = some last) :
    (j + i + 2 ≤ 1048576 →
      GetCellValue (writeEntry i j entry f) ⟨'E', j + i + 2⟩
        = some (last.AffilName.take 32767) ∧
      GetCellValue (writeEntry i j entry f) ⟨'F', j + i + 2⟩
        = some (last.AffiliationCity.take 32767) ∧
      GetCellValue (writeEntry i j entry f) ⟨'G', j + i + 2⟩
        = some (last.AffiliationCountry.take 32767)) ∧
    (1048576 < j + i + 2 → writeEntry i j entry f = f) := by
  have hrow : j + i + 2 = j + 2 + i := by omega
  rw [hrow]
  constructor
  · intro hle
    exact writeEntry_affiliation_cells i j entry f last hlast ⟨by omega, hle⟩
  · intro hgt
    apply writeEntry_of_invalid
    intro h
    have := h.2
    simp only [TotalRows] at this
    omega

theorem fillSheet_eq (responses : GoSlice ScopusResponse) :
    fillSheet responses = writeHeadersFrom 0 headers [] ++
      (triplesFrom 0 responses.elems).flatMap (fun t => writeEntry t.1 t.2.1 t.2.2 []) := by
  unfold fillSheet
  rw [writeResponsesFrom_eq]

theorem writeHeaders_eq :
    writeHeadersFrom 0 headers [] =
      [(⟨'A', 1⟩, "CoverDate".toList), (⟨'B', 1⟩, "DOI".toList), (⟨'C', 1⟩, "Title".toList),
       (⟨'D', 1⟩, "Creator".toList), (⟨'E', 1⟩, "Institution".toList),
       (⟨'F', 1⟩, "City".toList), (⟨'G', 1⟩, "Country".toList),
       (⟨'H', 1⟩, "Journal".toList), (⟨'I', 1⟩, "eISSN".toList),
       (⟨'J', 1⟩, "Volume".toList), (⟨'K', 1⟩, "Issue".toList), (⟨'L', 1⟩, "Pages".toList),
       (⟨'M', 1⟩, "OpenAccess".toList), (⟨'N', 1⟩, "CitedBy".toList),
       (⟨'O', 1⟩, "URL".toList)] := by
  decide

theorem writeHeaders_rows : ∀ w ∈ writeHeadersFrom 0 headers [], w.1.row = 1 := by
  rw [writeHeaders_eq]
  decide

theorem dataWrites_rows (L : List (Nat × Nat × ScopusEntry)) :
    ∀ w ∈ L.flatMap (fun t => writeEntry t.1 t.2.1 t.2.2 []),
      ∃ t ∈ L, w.1.row = t.2.1 + 2 + t.1 := by
  intro w hw
  rw [List.mem_flatMap] at hw
  obtain ⟨t, ht, hwt⟩ := hw
  exact ⟨t, ht, (writeEntry_rows _ _ _ w hwt).1⟩

theorem saveToExcelFile_saves (env : Env) (responses : GoSlice ScopusResponse)
    (outputFilePath : Str) (index : Int)
    (hsheet : env.newSheet "ScopusData".toList = .ok index) :
    (saveToExcelFile env responses outputFilePath).2.head?
      = some (Event.saveAs outputFilePath (fillSheet responses)) := by
  unfold saveToExcelFile
  rw [hsheet]
  dsimp only
  cases env.saveAs outputFilePath (fillSheet responses) <;> rfl

/-- C5. For every collection the first 15 writes of `saveToExcelFile` put the 15
header names, in their order, into A1, B1, ..., O1 (header `k` goes to the
column with letter `'A'+k`, row 1); every later write is in a row from 2 on;
and for a collection without responses nothing else is written. -/
theorem saveToExcelFile_header_row (responses : GoSlice ScopusResponse) :
    (fillSheet responses).take 15 =
        [(⟨'A', 1⟩, "CoverDate".toList), (⟨'B', 1⟩, "DOI".toList),
         (⟨'C', 1⟩, "Title".toList), (⟨'D', 1⟩, "Creator".toList),
         (⟨'E', 1⟩, "Institution".toList), (⟨'F', 1⟩, "City".toList),
         (⟨'G', 1⟩, "Country".toList), (⟨'H', 1⟩, "Journal".toList),
         (⟨'I', 1⟩, "eISSN".toList), (⟨'J', 1⟩, "Volume".toList),
         (⟨'K', 1⟩, "Issue".toList), (⟨'L', 1⟩, "Pages".toList),
         (⟨'M', 1⟩, "OpenAccess".toList), (⟨'N', 1⟩, "CitedBy".toList),
         (⟨'O', 1⟩, "URL".toList)] ∧
      (∀ k : Nat, k < 15 → (fillSheet responses)[k]?
        = some (⟨Char.ofNat (('A').toNat + k), 1⟩, headers.getD k [])) ∧
      (∀ w ∈ (fillSheet responses).drop 15, 2 ≤ w.1.row) ∧
      (responses.elems = [] → fillSheet responses = (fillSheet responses).take 15) := by
  have hlen : (writeHeadersFrom 0 headers []).length = 15 := by
    rw [writeHeaders_eq]
    rfl
  have htake : (fillSheet responses).take 15 = writeHeadersFrom 0 headers [] := by
    rw [fillSheet_eq, List.take_append_of_le_length (by omega), List.take_of_length_le (by omega)]
  have hdrop : (fillSheet responses).drop 15
      = (triplesFrom 0 responses.elems).flatMap (fun t => writeEntry t.1 t.2.1 t.2.2 []) := by
    rw [fillSheet_eq, ← hlen, List.drop_left]
  refine ⟨?_, ?_, ?_, ?_⟩
  · rw [htake, writeHeaders_eq]
  · intro k hk
    have hget : (fillSheet responses)[k]? = ((fillSheet responses).take 15)[k]? := by
      rw [List.getElem?_take_of_lt hk]
    rw [hget, htake, writeHeaders_eq]
    have hcases : k = 0 ∨ k = 1 ∨ k = 2 ∨ k = 3 ∨ k = 4 ∨ k = 5 ∨ k = 6 ∨ k = 7 ∨ k = 8 ∨
        k = 9 ∨ k = 10 ∨ k = 11 ∨ k = 12 ∨ k = 13 ∨ k = 14 := by omega
    rcases hcases with h | h | h | h | h | h | h | h | h | h | h | h | h | h | h <;>
      subst h <;> decide
  · intro w hw
    rw [hdrop] at hw
    obtain ⟨t, -, hrow⟩ := dataWrites_rows _ w hw
    omega
  · intro hempty
    rw [htake, fillSheet_eq, hempty]
    simp [triplesFrom]

/-! ## Rows of the data loop -/

theorem mem_entriesFrom (i : Nat) (es : List ScopusEntry) :
    ∀ (j0 a b : Nat) (e : ScopusEntry),
      (a, b, e) ∈ entriesFrom i j0 es ↔ a = i ∧ j0 ≤ b ∧ es[b - j0]? = some e := by
  induction es with
  | nil => intro j0 a b e; simp [entriesFrom]
  | cons x rest ih =>
    intro j0 a b e
    simp only [entriesFrom, List.mem_cons, Prod.mk.injEq, ih]
    constructor
    · rintro (⟨rfl, rfl, rfl⟩ | ⟨rfl, hle, hget⟩)
      · simp
      · refine ⟨rfl, by omega, ?_⟩
        have hb : b - j0 = (b - (j0 + 1)) + 1 := by omega
        rw [hb, List.getElem?_cons_succ]
        exact hget
    · rintro ⟨rfl, hle, hget⟩
      by_cases hb : b = j0
      · subst hb
        left
        simp only [Nat.sub_self, List.getElem?_cons_zero, Option.some.injEq] at hget
        exact ⟨rfl, rfl, hget.symm⟩
      · right
        refine ⟨rfl, by omega, ?_⟩
        have hb2 : b - j0 = (b - (j0 + 1)) + 1 := by omega
        rw [hb2, List.getElem?_cons_succ] at hget
        exact hget

theorem mem_triplesFrom (rs : List ScopusResponse) :
    ∀ (i0 a b : Nat) (e : ScopusEntry),
      (a, b, e) ∈ triplesFrom i0 rs ↔
        i0 ≤ a ∧ ∃ r, rs[a - i0]? = some r ∧ r.SearchResults.Entry[b]? = some e := by
  induction rs with
  | nil => intro i0 a b e; simp [triplesFrom]
  | cons x rest ih =>
    intro i0 a b e
    simp only [triplesFrom, List.mem_append, mem_entriesFrom, ih]
    constructor
    · rintro (⟨rfl, -, hget⟩ | ⟨hle, r, hr, hget⟩)
      · exact ⟨le_refl _, x, by simp, by simpa using hget⟩
      · refine ⟨by omega, r, ?_, hget⟩
        have ha : a - i0 = (a - (i0 + 1)) + 1 := by omega
        rw [ha, List.getElem?_cons_succ]
        exact hr
    · rintro ⟨hle, r, hr, hget⟩
      by_cases ha : a = i0
      · subst ha
        left
        simp only [Nat.sub_self, List.getElem?_cons_zero, Option.some.injEq] at hr
        subst hr
        exact ⟨rfl, Nat.zero_le _, by simpa using hget⟩
      · right
        refine ⟨by omega, r, ?_, hget⟩
        have ha2 : a - i0 = (a - (i0 + 1)) + 1 := by omega
        rw [ha2, List.getElem?_cons_succ] at hr
        exact hr

theorem pairwise_entriesFrom (i : Nat) (es : List ScopusEntry) :
    ∀ j0 : Nat, (entriesFrom i j0 es).Pairwise (fun s t => s.1 ≠ t.1 ∨ s.2.1 ≠ t.2.1) := by
  induction es with
  | nil => intro j0; exact List.Pairwise.nil
  | cons x rest ih =>
    intro j0
    simp only [entriesFrom]
    refine List.Pairwise.cons ?_ (ih (j0 + 1))
    rintro ⟨a, b, e⟩ ht
    have := (mem_entriesFrom i rest (j0 + 1) a b e).1 ht
    right
    show j0 ≠ b
    omega

theorem pairwise_triplesFrom (rs : List ScopusResponse) :
    ∀ i0 : Nat, (triplesFrom i0 rs).Pairwise (fun s t => s.1 ≠ t.1 ∨ s.2.1 ≠ t.2.1) := by
  induction rs with
  | nil => intro i0; exact List.Pairwise.nil
  | cons x rest ih =>
    intro i0
    simp only [triplesFrom]
    rw [List.pairwise_append]
    refine ⟨pairwise_entriesFrom _ _ _, ih (i0 + 1), ?_⟩
    rintro ⟨a, b, e⟩ hs ⟨a', b', e'⟩ ht
    have h1 := (mem_entriesFrom i0 _ 0 a b e).1 hs
    have h2 := (mem_triplesFrom rest (i0 + 1) a' b' e').1 ht
    left
    show a ≠ a'
    omega

theorem pairwise_rows (rs : List ScopusResponse) (hdistinct : RowsDistinct rs) :
    (triplesFrom 0 rs).Pairwise (fun s t => s.2.1 + 2 + s.1 ≠ t.2.1 + 2 + t.1) := by
  refine List.Pairwise.imp_of_mem ?_ (pairwise_triplesFrom rs 0)
  rintro ⟨a, b, e⟩ ⟨a', b', e'⟩ hs ht hne hrow
  obtain ⟨-, r, hr, he⟩ := (mem_triplesFrom rs 0 a b e).1 hs
  obtain ⟨-, r', hr', he'⟩ := (mem_triplesFrom rs 0 a' b' e').1 ht
  have hsum : a + b = a' + b' := by
    simp only at hrow
    omega
  obtain ⟨h1, h2⟩ := hdistinct a b a' b' r r' e e' hr he hr' he' hsum
  rcases hne with hne | hne
  · exact hne h1
  · exact hne h2

theorem split_at_row (L : List (Nat × Nat × ScopusEntry)) (t : Nat × Nat × ScopusEntry)
    (hpair : L.Pairwise (fun s t => s.2.1 + 2 + s.1 ≠ t.2.1 + 2 + t.1)) (ht : t ∈ L) :
    ∃ L1 L2, L = L1 ++ t :: L2 ∧
      (∀ s ∈ L1, s.2.1 + 2 + s.1 ≠ t.2.1 + 2 + t.1) ∧
      (∀ s ∈ L2, s.2.1 + 2 + s.1 ≠ t.2.1 + 2 + t.1) := by
  obtain ⟨L1, L2, rfl⟩ := List.append_of_mem ht
  rw [List.pairwise_append, List.pairwise_cons] at hpair
  obtain ⟨-, ⟨h2, -⟩, h12⟩ := hpair
  refine ⟨L1, L2, rfl, ?_, ?_⟩
  · intro s hs
    exact h12 s hs t (List.mem_cons_self _ _)
  · intro s hs
    exact (h2 s hs).symm

theorem fillSheet_split (responses : GoSlice ScopusResponse)
    (hdistinct : RowsDistinct responses.elems) (i j : Nat) (response : ScopusResponse)
    (entry : ScopusEntry) (hi : responses.elems[i]? = some response)
    (hj : response.SearchResults.Entry[j]? = some entry) :
    ∃ before after : Sheet,
      fillSheet responses = before ++ writeEntry i j entry [] ++ after ∧
      (∀ w ∈ before, w.1.row ≠ j + 2 + i) ∧ (∀ w ∈ after, w.1.row ≠ j + 2 + i) := by
  have hmem : (i, j, entry) ∈ triplesFrom 0 responses.elems :=
    (mem_triplesFrom _ 0 i j entry).2 ⟨Nat.zero_le _, response, by simpa using hi, hj⟩
  obtain ⟨L1, L2, hL, h1, h2⟩ :=
    split_at_row _ _ (pairwise_rows _ hdistinct) hmem
  refine ⟨writeHeadersFrom 0 headers [] ++
      L1.flatMap (fun t => writeEntry t.1 t.2.1 t.2.2 []),
    L2.flatMap (fun t => writeEntry t.1 t.2.1 t.2.2 []), ?_, ?_, ?_⟩
  · rw [fillSheet_eq, hL]
    simp
  · intro w hw
    rw [List.mem_append] at hw
    rcases hw with hw | hw
    · rw [writeHeaders_rows w hw]
      omega
    · obtain ⟨s, hs, hrow⟩ := dataWrites_rows L1 w hw
      rw [hrow]
      exact h1 s hs
  · intro w hw
    obtain ⟨s, hs, hrow⟩ := dataWrites_rows L2 w hw
    rw [hrow]
    exact h2 s hs

theorem fillSheet_cell (responses : GoSlice ScopusResponse)
    (hdistinct : RowsDistinct responses.elems) (i j : Nat) (response : ScopusResponse)
    (entry : ScopusEntry) (hi : responses.elems[i]? = some response)
    (hj : response.SearchResults.Entry[j]? = some entry) (col : Char) :
    GetCellValue (fillSheet responses) ⟨col, j + 2 + i⟩
        = GetCellValue (writeEntry i j entry []) ⟨col, j + 2 + i⟩ ∧
      writeCount (fillSheet responses) ⟨col, j + 2 + i⟩
        = writeCount (writeEntry i j entry []) ⟨col, j + 2 + i⟩ := by
  obtain ⟨before, after, hsplit, hb, ha⟩ :=
    fillSheet_split responses hdistinct i j response entry hi hj
  have hb2 : ∀ w ∈ before, w.1 ≠ (⟨col, j + 2 + i⟩ : Cell) := by
    intro w hw heq
    exact hb w hw (by rw [heq])
  have ha2 : ∀ w ∈ after, w.1 ≠ (⟨col, j + 2 + i⟩ : Cell) := by
    intro w hw heq
    exact ha w hw (by rw [heq])
  rw [hsplit]
  constructor
  · rw [getCellValue_append, getCellValue_eq_none _ _ ha2, getCellValue_append,
      getCellValue_eq_none _ _ hb2]
    cases GetCellValue (writeEntry i j entry []) ⟨col, j + 2 + i⟩ <;> rfl
  · rw [writeCount_append, writeCount_append, writeCount_eq_zero _ _ ha2,
      writeCount_eq_zero _ _ hb2]
    omega


theorem rowsDistinct_single (response : ScopusResponse) : RowsDistinct [response] := by
  intro i j i' j' r r' e e' hi _ hi' _ hsum
  have h0 : i = 0 := by
    cases i with
    | zero => rfl
    | succ n => simp at hi
  have h0' : i' = 0 := by
    cases i' with
    | zero => rfl
    | succ n => simp at hi'
  omega

theorem rowsDistinct_of_at_most_one_entry (responses : List ScopusResponse)
    (h : ∀ r ∈ responses, r.SearchResults.Entry.length ≤ 1) : RowsDistinct responses := by
  intro i j i' j' r r' e e' hi hj hi' hj' hsum
  have hlt : j < r.SearchResults.Entry.length := (List.getElem?_eq_some_iff.1 hj).1
  have hlt' : j' < r'.SearchResults.Entry.length := (List.getElem?_eq_some_iff.1 hj').1
  have h1 := h r (List.getElem?_mem hi)
  have h1' := h r' (List.getElem?_mem hi')
  omega

theorem getCellValue_fixedWrites (row : Nat) (entry : ScopusEntry) :
    ∀ w ∈ fixedWrites row entry,
      GetCellValue (fixedWrites row entry) w.1 = some w.2 ∧ w.1.row = row ∧
        (w.1.col ≠ 'E' ∧ w.1.col ≠ 'F' ∧ w.1.col ≠ 'G') ∧
        ∀ other : ScopusEntry, writeCount (fixedWrites row other) w.1 = 1 := by
  intro w hw
  simp only [fixedWrites, List.mem_cons, List.mem_nil_iff, or_false] at hw
  rcases hw with rfl | rfl | rfl | rfl | rfl | rfl | rfl | rfl | rfl | rfl | rfl | rfl <;>
    simp [fixedWrites, GetCellValue, writeCount, List.countP_cons]

theorem fillSheet_fixed (responses : GoSlice ScopusResponse)
    (hdistinct : RowsDistinct responses.elems) (i j : Nat) (response : ScopusResponse)
    (entry : ScopusEntry) (hi : responses.elems[i]? = some response)
    (hj : response.SearchResults.Entry[j]? = some entry)
    (hrow : j + 2 + i ≤ TotalRows) :
    ∀ w ∈ fixedWrites (j + 2 + i) entry,
      GetCellValue (fillSheet responses) w.1 = some w.2 ∧
        writeCount (fillSheet responses) w.1 = 1 := by
  intro w hw
  obtain ⟨hget, hwrow, hcol, hcount⟩ := getCellValue_fixedWrites (j + 2 + i) entry w hw
  have hcell := fillSheet_cell responses hdistinct i j response entry hi hj w.1.col
  have hw1 : (⟨w.1.col, j + 2 + i⟩ : Cell) = w.1 := by
    rw [← hwrow]
  rw [hw1] at hcell
  have hentry := writeEntry_get i j entry w.1 ⟨by omega, hrow⟩ hcol
  exact ⟨hcell.1.trans (hentry.1.trans hget), hcell.2.trans (hentry.2.trans (hcount entry))⟩

theorem fillSheet_rows (responses : GoSlice ScopusResponse) :
    ∀ w ∈ fillSheet responses, w.1.row ≤ TotalRows := by
  intro w hw
  rw [fillSheet_eq, List.mem_append] at hw
  rcases hw with hw | hw
  · rw [writeHeaders_rows w hw]
    decide
  · rw [List.mem_flatMap] at hw
    obtain ⟨t, -, hwt⟩ := hw
    exact (writeEntry_rows _ _ _ w hwt).2

/-- C6 (as stated, refuted). The collection `longTitle` has one response with one
entry, so its sums `i + j` are pairwise distinct, and the title of the entry
has 40000 characters; in the final sheet C2 holds the first 32767 characters of
the title, not the title. -/
theorem saveToExcelFile_long_title :
    RowsDistinct longTitle.elems ∧
    longTitle.elems[0]?.bind (fun r => r.SearchResults.Entry[0]?.map (fun e => e.Title))
      = some longText ∧
    longText.length = 40000 ∧
    GetCellValue (fillSheet longTitle) ⟨'C', 2⟩ = some (longText.take 32767) ∧
    GetCellValue (fillSheet longTitle) ⟨'C', 2⟩ ≠ some longText := by
  have h := (fillSheet_fixed longTitle (rowsDistinct_single _) 0 0
    (sampleResponse [sampleEntry "10.1/long".toList longText])
    (sampleEntry "10.1/long".toList longText) rfl rfl (by decide)
    (⟨'C', 2⟩, longText.take TotalCellChars) (by simp [fixedWrites, sampleEntry])).1
  refine ⟨rowsDistinct_single _, rfl, length_longText, h, ?_⟩
  intro heq
  rw [h] at heq
  exact take_longText_ne (Option.some.inj heq)

/-- C6 (amended). Entry `j` of response `i` is written to row `j + i + 2`, and
no row above 1048576 is ever written.  When the sums `i + j` are pairwise
distinct over the (response, entry) pairs of the collection and the row
`j + i + 2` is at most 1048576, the final sheet holds in that row the entry's
CoverDate, DOI, Title, Creator, PublicationName, EISSN, Volume,
IssueIdentifier, PageRange, OpenAccess, CitedByCount and URL, each cut to its
first 32767 characters, in the columns A, B, C, D, H, I, J, K, L, M, N, O; each
of these twelve cells is written exactly once, and every write into the row is
one of the writes of this entry. -/
theorem saveToExcelFile_rows (responses : GoSlice ScopusResponse)
    (hdistinct : RowsDistinct responses.elems) (i j : Nat) (response : ScopusResponse)
    (entry : ScopusEntry) (hi : responses.elems[i]? = some response)
    (hj : response.SearchResults.Entry[j]? = some entry) (hrow : j + i + 2 ≤ 1048576) :
    (∀ f : Sheet, ∀ w ∈ writeEntry i j entry [],
      w ∈ writeEntry i j entry f ∧ w.1.row = j + i + 2) ∧
    (∀ w ∈ fillSheet responses, w.1.row ≤ 1048576) ∧
    GetCellValue (fillSheet responses) ⟨'A', j + i + 2⟩ = some (entry.CoverDate.take 32767) ∧
    GetCellValue (fillSheet responses) ⟨'B', j + i + 2⟩ = some (entry.DOI.take 32767) ∧
    GetCellValue (fillSheet responses) ⟨'C', j + i + 2⟩ = some (entry.Title.take 32767) ∧
    GetCellValue (fillSheet responses) ⟨'D', j + i + 2⟩ = some (entry.Creator.take 32767) ∧
    GetCellValue (fillSheet responses) ⟨'H', j + i + 2⟩
      = some (entry.PublicationName.take 32767) ∧
    GetCellValue (fillSheet responses) ⟨'I', j + i + 2⟩ = some (entry.EISSN.take 32767) ∧
    GetCellValue (fillSheet responses) ⟨'J', j + i + 2⟩ = some (entry.Volume.take 32767) ∧
    GetCellValue (fillSheet responses) ⟨'K', j + i + 2⟩
      = some (entry.IssueIdentifier.take 32767) ∧
    GetCellValue (fillSheet responses) ⟨'L', j + i + 2⟩ = some (entry.PageRange.take 32767) ∧
    GetCellValue (fillSheet responses) ⟨'M', j + i + 2⟩ = some (entry.OpenAccess.take 32767) ∧
    GetCellValue (fillSheet responses) ⟨'N', j + i + 2⟩
      = some (entry.CitedByCount.take 32767) ∧
    GetCellValue (fillSheet responses) ⟨'O', j + i + 2⟩ = some (entry.URL.take 32767) ∧
    (∀ col ∈ ['A', 'B', 'C', 'D', 'H', 'I', 'J', 'K', 'L', 'M', 'N', 'O'],
      writeCount (fillSheet responses) ⟨col, j + i + 2⟩ = 1) ∧
    (∀ w ∈ fillSheet responses, w.1.row = j + i + 2 → w ∈ writeEntry i j entry []) := by
  have hrow2 : j + i + 2 = j + 2 + i := by omega
  rw [hrow2] at hrow ⊢
  have hfixed := fillSheet_fixed responses hdistinct i j response entry hi hj hrow
  have hmem : ∀ w : Cell × Str, w ∈ fixedWrites (j + 2 + i) entry →
      GetCellValue (fillSheet responses) w.1 = some w.2 := fun w hw => (hfixed w hw).1
  refine ⟨?_, fillSheet_rows responses, ?_, ?_, ?_, ?_, ?_, ?_, ?_, ?_, ?_, ?_, ?_, ?_, ?_, ?_⟩
  · intro f w hw
    refine ⟨?_, (writeEntry_rows i j entry w hw).1⟩
    rw [writeEntry_append]
    exact List.mem_append_right _ hw
  · exact hmem (⟨'A', _⟩, _) (by simp [fixedWrites, TotalCellChars])
  · exact hmem (⟨'B', _⟩, _) (by simp [fixedWrites, TotalCellChars])
  · exact hmem (⟨'C', _⟩, _) (by simp [fixedWrites, TotalCellChars])
  · exact hmem (⟨'D', _⟩, _) (by simp [fixedWrites, TotalCellChars])
  · exact hmem (⟨'H', _⟩, _) (by simp [fixedWrites, TotalCellChars])
  · exact hmem (⟨'I', _⟩, _) (by simp [fixedWrites, TotalCellChars])
  · exact hmem (⟨'J', _⟩, _) (by simp [fixedWrites, TotalCellChars])
  · exact hmem (⟨'K', _⟩, _) (by simp [fixedWrites, TotalCellChars])
  · exact hmem (⟨'L', _⟩, _) (by simp [fixedWrites, TotalCellChars])
  · exact hmem (⟨'M', _⟩, _) (by simp [fixedWrites, TotalCellChars])
  · exact hmem (⟨'N', _⟩, _) (by simp [fixedWrites, TotalCellChars])
  · exact hmem (⟨'O', _⟩, _) (by simp [fixedWrites, TotalCellChars])
  · intro col hcol
    simp only [List.mem_cons, List.mem_nil_iff, or_false] at hcol
    rcases hcol with rfl | rfl | rfl | rfl | rfl | rfl | rfl | rfl | rfl | rfl | rfl | rfl
    · exact (hfixed (⟨'A', _⟩, entry.CoverDate.take TotalCellChars) (by simp [fixedWrites])).2
    · exact (hfixed (⟨'B', _⟩, entry.DOI.take TotalCellChars) (by simp [fixedWrites])).2
    · exact (hfixed (⟨'C', _⟩, entry.Title.take TotalCellChars) (by simp [fixedWrites])).2
    · exact (hfixed (⟨'D', _⟩, entry.Creator.take TotalCellChars) (by simp [fixedWrites])).2
    · exact (hfixed (⟨'H', _⟩, entry.PublicationName.take TotalCellChars)
        (by simp [fixedWrites])).2
    · exact (hfixed (⟨'I', _⟩, entry.EISSN.take TotalCellChars) (by simp [fixedWrites])).2
    · exact (hfixed (⟨'J', _⟩, entry.Volume.take TotalCellChars) (by simp [fixedWrites])).2
    · exact (hfixed (⟨'K', _⟩, entry.IssueIdentifier.take TotalCellChars)
        (by simp [fixedWrites])).2
    · exact (hfixed (⟨'L', _⟩, entry.PageRange.take TotalCellChars) (by simp [fixedWrites])).2
    · exact (hfixed (⟨'M', _⟩, entry.OpenAccess.take TotalCellChars) (by simp [fixedWrites])).2
    · exact (hfixed (⟨'N', _⟩, entry.CitedByCount.take TotalCellChars)
        (by simp [fixedWrites])).2
    · exact (hfixed (⟨'O', _⟩, entry.URL.take TotalCellChars) (by simp [fixedWrites])).2
  · intro w hw hwrow
    obtain ⟨before, after, hsplit, hb, ha⟩ :=
      fillSheet_split responses hdistinct i j response entry hi hj
    rw [hsplit, List.mem_append, List.mem_append] at hw
    rcases hw with (hw | hw) | hw
    · exact absurd hwrow (hb w hw)
    · exact hw
    · exact absurd hwrow (ha w hw)

theorem writeEntry_other_row (i j : Nat) (entry : ScopusEntry) (cell : Cell)
    (h : cell.row ≠ j + 2 + i) :
    GetCellValue (writeEntry i j entry []) cell = none ∧
      writeCount (writeEntry i j entry []) cell = 0 := by
  have hne : ∀ w ∈ writeEntry i j entry [], w.1 ≠ cell := by
    intro w hw heq
    exact h (heq ▸ (writeEntry_rows i j entry w hw).1)
  exact ⟨getCellValue_eq_none _ _ hne, writeCount_eq_zero _ _ hne⟩

theorem writeHeaders_other_row (cell : Cell) (h : cell.row ≠ 1) :
    GetCellValue (writeHeadersFrom 0 headers []) cell = none ∧
      writeCount (writeHeadersFrom 0 headers []) cell = 0 := by
  have hne : ∀ w ∈ writeHeadersFrom 0 headers [], w.1 ≠ cell := by
    intro w hw heq
    exact h (heq ▸ writeHeaders_rows w hw)
  exact ⟨getCellValue_eq_none _ _ hne, writeCount_eq_zero _ _ hne⟩

/-- C9 (as stated, refuted). In the collection `collisionSample` (response 0
with three entries, response 1 with one) the entry of response 1 is written to
row 3, but the third entry of response 0 is written to row 4: its row is
written once and still holds its values at the end, so it is not overwritten. -/
theorem collision_third_entry_kept :
    (∀ w ∈ writeEntry 1 0 (sampleEntry "10.1/b0".toList "b0".toList) [], w.1.row = 3) ∧
    (∀ w ∈ writeEntry 0 2 (sampleEntry "10.1/a2".toList "a2".toList) [], w.1.row = 4) ∧
    GetCellValue (fillSheet collisionSample) ⟨'C', 4⟩ = some "a2".toList ∧
    GetCellValue (fillSheet collisionSample) ⟨'B', 4⟩ = some "10.1/a2".toList ∧
    writeCount (fillSheet collisionSample) ⟨'C', 4⟩ = 1 ∧
    GetCellValue (fillSheet collisionSample) ⟨'C', 3⟩ = some "b0".toList := by
  decide

/-- C9 (amended). For every collection in which response 0 has three entries
and response 1 has one, whatever responses follow, the entry of response 1
(`j = 0` at `i = 1`) is written to row 3, the row of the second entry of
response 0, not of its third, which is row 4.  Before that write the twelve
cells of row 3 outside the affiliation columns hold the values of the second
entry; once the entry of response 1 is written they hold its values (each cut
to 32767 characters) and have been written twice, while the twelve cells of
row 4 hold the values of the third entry, written once, and nothing else has
been written into row 4.  The responses that follow are written onto that
sheet. -/
theorem collision_second_entry (r0 r1 : ScopusResponse) (rest : List ScopusResponse)
    (e0 e1 e2 b : ScopusEntry)
    (h0 : r0.SearchResults.Entry = [e0, e1, e2]) (h1 : r1.SearchResults.Entry = [b]) :
    (∀ w ∈ writeEntry 1 0 b [], w.1.row = 3) ∧
    (∀ w ∈ writeEntry 0 1 e1 [], w.1.row = 3) ∧
    (∀ w ∈ writeEntry 0 2 e2 [], w.1.row = 4) ∧
    fillSheet (.mk (r0 :: r1 :: rest))
      = writeResponsesFrom 2 rest (fillSheet (.mk [r0, r1])) ∧
    fillSheet (.mk [r0, r1]) = writeEntry 1 0 b (fillSheet (.mk [r0])) ∧
    (∀ w ∈ fixedWrites 3 e1, GetCellValue (fillSheet (.mk [r0])) w.1 = some w.2) ∧
    (∀ w ∈ fixedWrites 3 b,
      GetCellValue (fillSheet (.mk [r0, r1])) w.1 = some w.2 ∧
      writeCount (fillSheet (.mk [r0, r1])) w.1 = 2) ∧
    (∀ w ∈ fixedWrites 4 e2,
      GetCellValue (fillSheet (.mk [r0, r1])) w.1 = some w.2 ∧
      writeCount (fillSheet (.mk [r0, r1])) w.1 = 1) ∧
    (∀ w ∈ fillSheet (.mk [r0, r1]), w.1.row = 4 → w ∈ writeEntry 0 2 e2 []) := by
  have hone : fillSheet (.mk [r0]) = ((writeHeadersFrom 0 headers [] ++
      writeEntry 0 0 e0 []) ++ writeEntry 0 1 e1 []) ++ writeEntry 0 2 e2 [] := by
    rw [fillSheet_eq]
    simp [GoSlice.elems, triplesFrom, entriesFrom, h0]
  have hfill : fillSheet (.mk [r0, r1]) = (((writeHeadersFrom 0 headers [] ++
      writeEntry 0 0 e0 []) ++ writeEntry 0 1 e1 []) ++ writeEntry 0 2 e2 []) ++
      writeEntry 1 0 b [] := by
    rw [fillSheet_eq]
    simp [GoSlice.elems, triplesFrom, entriesFrom, h0, h1]
  have hv3 : 1 ≤ 3 ∧ 3 ≤ TotalRows := by decide
  have hv4 : 1 ≤ 4 ∧ 4 ≤ TotalRows := by decide
  refine ⟨fun w hw => (writeEntry_rows 1 0 b w hw).1,
    fun w hw => (writeEntry_rows 0 1 e1 w hw).1,
    fun w hw => (writeEntry_rows 0 2 e2 w hw).1, rfl, ?_, ?_, ?_, ?_, ?_⟩
  · rw [writeEntry_append, hfill, hone]
  · intro w hw
    obtain ⟨hget, hrow, hcol, -⟩ := getCellValue_fixedWrites 3 e1 w hw
    rw [hone, getCellValue_append,
      (writeEntry_other_row 0 2 e2 w.1 (by rw [hrow]; decide)).1, getCellValue_append,
      (writeEntry_get 0 1 e1 w.1 hv3 hcol).1, hget]
  · intro w hw
    obtain ⟨hget, hrow, hcol, hcount⟩ := getCellValue_fixedWrites 3 b w hw
    constructor
    · rw [hfill, getCellValue_append, (writeEntry_get 1 0 b w.1 hv3 hcol).1, hget]
    · rw [hfill, writeCount_append, writeCount_append, writeCount_append, writeCount_append,
        (writeHeaders_other_row w.1 (by rw [hrow]; decide)).2,
        (writeEntry_other_row 0 0 e0 w.1 (by rw [hrow]; decide)).2,
        (writeEntry_get 0 1 e1 w.1 hv3 hcol).2,
        (writeEntry_other_row 0 2 e2 w.1 (by rw [hrow]; decide)).2,
        (writeEntry_get 1 0 b w.1 hv3 hcol).2]
      have c1 : writeCount (fixedWrites 3 e1) w.1 = 1 := hcount e1
      have c2 : writeCount (fixedWrites 3 b) w.1 = 1 := hcount b
      rw [c1, c2]
  · intro w hw
    obtain ⟨hget, hrow, hcol, hcount⟩ := getCellValue_fixedWrites 4 e2 w hw
    constructor
    · rw [hfill, getCellValue_append,
        (writeEntry_other_row 1 0 b w.1 (by rw [hrow]; decide)).1, getCellValue_append,
        (writeEntry_get 0 2 e2 w.1 hv4 hcol).1, hget]
    · rw [hfill, writeCount_append, writeCount_append, writeCount_append, writeCount_append,
        (writeHeaders_other_row w.1 (by rw [hrow]; decide)).2,
        (writeEntry_other_row 0 0 e0 w.1 (by rw [hrow]; decide)).2,
        (writeEntry_other_row 0 1 e1 w.1 (by rw [hrow]; decide)).2,
        (writeEntry_get 0 2 e2 w.1 hv4 hcol).2,
        (writeEntry_other_row 1 0 b w.1 (by rw [hrow]; decide)).2]
      have c1 : writeCount (fixedWrites 4 e2) w.1 = 1 := hcount e2
      rw [c1]
  · intro w hw hrow
    rw [hfill] at hw
    simp only [List.mem_append] at hw
    rcases hw with (((hw | hw) | hw) | hw) | hw
    · have := writeHeaders_rows w hw
      omega
    · have := (writeEntry_rows 0 0 e0 w hw).1
      omega
    · have := (writeEntry_rows 0 1 e1 w hw).1
      omega
    · exact hw
    · have := (writeEntry_rows 1 0 b w hw).1
      omega

/-! ## `strings.ReplaceAll` and the five escape sequences -/

theorem unescapeEntity_of_noReference (T : HtmlTables) (cs : Str)
    (h : noReference ('&' :: cs) = true) : unescapeEntity T ('&' :: cs) = (['&'], 1) := by
  cases cs with
  | nil => rfl
  | cons d ds =>
    simp only [noReference, beq_self_eq_true, Bool.true_and, Bool.and_eq_true,
      Bool.not_eq_true', Bool.or_eq_false_iff, beq_eq_false_iff_ne, ne_eq] at h
    obtain ⟨⟨⟨h1, h2⟩, h3⟩, -⟩ := h
    have hlen : ¬ ('&' :: d :: ds).length ≤ 1 := by simp
    have hget : ¬ ('&' :: d :: ds).get? 1 = some '#' := by simpa using h1
    unfold unescapeEntity
    rw [if_neg hlen, if_neg hget]
    simp [scanName, h2, h3]

theorem unescapeAux_of_noReference (T : HtmlTables) :
    ∀ (n : Nat) (s : Str), noReference s = true → unescapeAux T n s = s := by
  intro n
  induction n with
  | zero => intro s _; rfl
  | succ n ih =>
    intro s h
    cases s with
    | nil => rfl
    | cons c cs =>
      have hcs : noReference cs = true := by
        simp only [noReference, Bool.and_eq_true] at h
        exact h.2
      rw [unescapeAux]
      by_cases hc : c = '&'
      · subst hc
        rw [if_pos rfl, unescapeEntity_of_noReference T cs h]
        simp [ih cs hcs]
      · rw [if_neg hc, ih cs hcs]

theorem unescapeString_of_noReference (T : HtmlTables) (s : Str)
    (h : noReference s = true) : UnescapeString T s = s := by
  unfold UnescapeString
  split
  · exact unescapeAux_of_noReference T _ s h
  · rfl

/-! ## `html.UnescapeString` creates no escape sequence from other characters -/

theorem replaceXmlEscapes_quotedTitleBody (T : HtmlTables) :
    replaceXmlEscapes T quotedTitleBody = brokenTitleBody := by
  have h1 : replaceEscapes quotedTitleBody = brokenTitleBody := by decide
  have h2 : noReference brokenTitleBody = true := by decide
  unfold replaceXmlEscapes
  rw [h1]
  exact unescapeString_of_noReference T _ h2

/-- C10. The body whose title is written `a\u0022b` is well-formed JSON, but
`replaceXmlEscapes` turns it into a text in which the inserted quote closes the
string, which is not well-formed JSON.  So when the server answers a lookup with
this body (status 200) and the decoder rejects the texts that are not
well-formed, `fetchScopusData` returns a decoding error, and `parseRISFile` on a
file whose only line carries this DOI returns no response. -/
theorem escape_breaks_json (env : Env) (filePath doi apiKey : Str)
    (hopen : env.osOpen filePath = .ok ⟨[doiTag ++ doi], none⟩)
    (hget : env.httpGet (apiURL doi apiKey) = .ok ⟨StatusOK, .ok quotedTitleBody⟩)
    (hstrict : ∀ text, jsonValid text = false → ∃ err, env.unmarshal text = .error err) :
    quotedTitleBody = "\x7b\"dc:title\":\"a\\u0022b\"\x7d".toList ∧
    jsonValid quotedTitleBody = true ∧
    replaceXmlEscapes env.html quotedTitleBody = "\x7b\"dc:title\":\"a\"b\"\x7d".toList ∧
    jsonValid (replaceXmlEscapes env.html quotedTitleBody) = false ∧
    (∃ err, (fetchScopusData env doi apiKey).1
      = .error ("error unmarshalling JSON: ".toList ++ err)) ∧
    (parseRISFile env filePath apiKey).1 = .ok GoSlice.nil := by
  have hbody := replaceXmlEscapes_quotedTitleBody env.html
  have hinvalid : jsonValid brokenTitleBody = false := by decide
  obtain ⟨err, herr⟩ := hstrict brokenTitleBody hinvalid
  have hfetch : (fetchScopusData env doi apiKey).1
      = .error ("error unmarshalling JSON: ".toList ++ err) := by
    unfold fetchScopusData
    simp only [hget, hbody, herr, ne_eq, not_true_eq_false, if_false]
  have hlookup : lookup? env apiKey doi = none := by
    unfold lookup?
    rw [hfetch]
  refine ⟨rfl, by decide, ?_, ?_, ⟨err, hfetch⟩, ?_⟩
  · rw [hbody]
    rfl
  · rw [hbody]
    exact hinvalid
  · have hok : (parseRISFile env filePath apiKey).1
        = .ok (([doiTag ++ doi].foldl (parseLine env apiKey)
            (GoSlice.nil, [Event.osOpen filePath])).1) :=
      (parseRISFile_ok_iff env filePath apiKey _).2 ⟨_, hopen, rfl⟩
    have helems := (parseLoop_spec env apiKey [doiTag ++ doi]
      (GoSlice.nil, [Event.osOpen filePath])).1
    have hdrop : (doiTag ++ doi).drop 6 = doi := List.drop_left' rfl
    have htag : doiTag <+: doiTag ++ doi := List.prefix_append _ _
    simp only [List.filterMap_cons, htag, if_true, hdrop, hlookup, List.filterMap_nil,
      GoSlice.elems, List.append_nil] at helems
    rw [hok, parseRISFile_empty_is_nil env filePath apiKey _ hok helems]

/-! ## The step bounds are enough -/

theorem replaceAllAux_fuel (old new : Str) (hne : old ≠ []) :
    ∀ (n m : Nat) (s : Str), s.length ≤ n → s.length ≤ m →
      replaceAllAux old new n s = replaceAllAux old new m s := by
  intro n
  induction n with
  | zero =>
    intro m s hn _
    have : s = [] := List.length_eq_zero.1 (Nat.le_zero.1 hn)
    subst this
    cases m <;> rfl
  | succ n ih =>
    intro m s hn hm
    cases s with
    | nil => cases m <;> rfl
    | cons c cs =>
      cases m with
      | zero => simp at hm
      | succ m =>
        simp only [List.length_cons] at hn hm
        have hpos : 0 < old.length := List.length_pos.2 hne
        rw [replaceAllAux, replaceAllAux]
        split
        · rw [ih m ((c :: cs).drop old.length)
            (by rw [List.length_drop, List.length_cons]; omega)
            (by rw [List.length_drop, List.length_cons]; omega)]
        · rw [ih m cs (by omega) (by omega)]

theorem scanName_ge : ∀ (cs : Str) (i : Nat), i ≤ scanName cs i := by
  intro cs
  induction cs with
  | nil => intro i; exact le_refl _
  | cons c rest ih =>
    intro i
    rw [scanName]
    split
    · exact le_trans (Nat.le_succ i) (ih (i + 1))
    · split <;> omega

theorem unescapeEntity_consumes (T : HtmlTables) (s : Str) : 1 ≤ (unescapeEntity T s).2 := by
  unfold unescapeEntity
  have hname := scanName_ge (s.drop 1) 1
  split
  · exact Nat.le_refl 1
  · split
    · split
      · exact Nat.le_refl 1
      · lift_lets
        intro hex i0 r x x2
        by_cases h : r.2 ≤ 3
        · rw [if_pos h]
        · rw [if_neg h]
          exact Nat.le_trans (by decide) (Nat.lt_of_not_le h)
    · lift_lets
      intro i entityName
      split
      · exact hname
      · repeat' split
        all_goals first
          | exact hname
          | exact Nat.le_add_left 1 _

theorem unescapeAux_fuel (T : HtmlTables) :
    ∀ (n m : Nat) (s : Str), s.length ≤ n → s.length ≤ m →
      unescapeAux T n s = unescapeAux T m s := by
  intro n
  induction n with
  | zero =>
    intro m s hn _
    have : s = [] := List.length_eq_zero.1 (Nat.le_zero.1 hn)
    subst this
    cases m <;> rfl
  | succ n ih =>
    intro m s hn hm
    cases s with
    | nil => cases m <;> rfl
    | cons c cs =>
      cases m with
      | zero => simp at hm
      | succ m =>
        simp only [List.length_cons] at hn hm
        have hpos := unescapeEntity_consumes T (c :: cs)
        rw [unescapeAux, unescapeAux]
        split
        · rw [ih m ((c :: cs).drop (unescapeEntity T (c :: cs)).2)
            (by rw [List.length_drop, List.length_cons]; omega)
            (by rw [List.length_drop, List.length_cons]; omega)]
        · rw [ih m cs (by omega) (by omega)]

/-! ## The theorems at sample inputs -/

/-- C1 at `refs.ris`: of its three lines only the DOI line is looked up. -/
theorem parseRISFile_lookups_witness :
    requestedURLs (parseRISFile sampleEnv "refs.ris".toList "KEY".toList).2
        = [apiURL "10.1000/xyz123".toList "KEY".toList] ∧
      (requestedURLs (parseRISFile sampleEnv "refs.ris".toList "KEY".toList).2).length = 1 :=
  ⟨(parseRISFile_lookups sampleEnv "refs.ris".toList "KEY".toList
      ⟨["TY  - JOUR".toList, "DO  - 10.1000/xyz123".toList, "ER  - ".toList], none⟩
      (by decide)).1.trans (by decide),
   (parseRISFile_lookups sampleEnv "refs.ris".toList "KEY".toList
      ⟨["TY  - JOUR".toList, "DO  - 10.1000/xyz123".toList, "ER  - ".toList], none⟩
      (by decide)).2.1.trans (by decide)⟩

/-- C2 at `refs.ris`: the collection is the one response of the one lookup. -/
theorem parseRISFile_collects_witness :
    ∃ responses : GoSlice ScopusResponse,
      (parseRISFile sampleEnv "refs.ris".toList "KEY".toList).1 = .ok responses ∧
      responses.elems
        = [sampleResponse [sampleEntry "10.1000/xyz123".toList "Example Title".toList]] :=
  match parseRISFile_collects sampleEnv "refs.ris".toList "KEY".toList
      ["TY  - JOUR".toList, "DO  - 10.1000/xyz123".toList, "ER  - ".toList] (by decide) with
  | ⟨responses, hok, helems, _, _⟩ => ⟨responses, hok, helems.trans (by decide)⟩

/-- C4 at `empty.ris`: the JSON file gets the text `null`. -/
theorem saveToJSONFile_empty_writes_null_witness :
    (parseRISFile sampleEnv "empty.ris".toList "KEY".toList).1 = .ok GoSlice.nil ∧
      (saveToJSONFile sampleEnv GoSlice.nil "./empty.json".toList).2.head?
        = some (Event.writeFile "./empty.json".toList "null".toList) :=
  ⟨by decide,
   (saveToJSONFile_empty_writes_null sampleEnv "empty.ris".toList "KEY".toList
      "./empty.json".toList GoSlice.nil (by decide) (by decide)).2.1⟩

/-- C5 at the empty collection: the sheet is the header row. -/
theorem saveToExcelFile_header_row_witness :
    (fillSheet (GoSlice.nil : GoSlice ScopusResponse)).length = 15 ∧
      (fillSheet (GoSlice.nil : GoSlice ScopusResponse))[1]?
        = some (⟨'B', 1⟩, "DOI".toList) :=
  ⟨by
      rw [(saveToExcelFile_header_row GoSlice.nil).2.2.2 rfl,
        (saveToExcelFile_header_row GoSlice.nil).1]
      rfl,
   ((saveToExcelFile_header_row GoSlice.nil).2.1 1 (by decide)).trans (by decide)⟩

/-- C6 (amended) at one response with two entries: entry 1 is in row 3, entry 0
in row 2 with its DOI in B2 and its title in C2. -/
theorem saveToExcelFile_rows_witness :
    GetCellValue (fillSheet twoEntries) ⟨'B', 2⟩ = some "10.1000/xyz123".toList ∧
      GetCellValue (fillSheet twoEntries) ⟨'C', 2⟩ = some "Example Title".toList ∧
      GetCellValue (fillSheet twoEntries) ⟨'C', 3⟩ = some "Second Title".toList ∧
      writeCount (fillSheet twoEntries) ⟨'C', 3⟩ = 1 :=
  ⟨(saveToExcelFile_rows twoEntries (rowsDistinct_single _) 0 0 _ _ rfl rfl
      (by decide)).2.2.2.1.trans (by decide),
   (saveToExcelFile_rows twoEntries (rowsDistinct_single _) 0 0 _ _ rfl rfl
      (by decide)).2.2.2.2.1.trans (by decide),
   (saveToExcelFile_rows twoEntries (rowsDistinct_single _) 0 1 _ _ rfl rfl
      (by decide)).2.2.2.2.1.trans (by decide),
   (saveToExcelFile_rows twoEntries (rowsDistinct_single _) 0 1 _ _ rfl rfl
      (by decide)).2.2.2.2.2.2.2.2.2.2.2.2.2.2.1 'C' (by decide)⟩

/-- C7 (amended) at an entry with two affiliations: E2, F2, G2 hold the second
one. -/
theorem writeEntry_last_affiliation_witness :
    GetCellValue (writeEntry 0 0 twoAffiliations []) ⟨'E', 2⟩ = some "Second".toList ∧
      GetCellValue (writeEntry 0 0 twoAffiliations []) ⟨'F', 2⟩ = some "Lyon".toList ∧
      GetCellValue (writeEntry 0 0 twoAffiliations []) ⟨'G', 2⟩ = some "France".toList :=
  have h := (writeEntry_last_affiliation 0 0 twoAffiliations []
    { Fa := [], AffilName := "Second".toList, AffiliationCity := "Lyon".toList,
      AffiliationCountry := "France".toList } (by decide)).1 (by decide)
  ⟨h.1.trans (by decide), h.2.1.trans (by decide), h.2.2.trans (by decide)⟩

/-- C8 at a blank path, and at `refs.ris` with the key `KEY`. -/
theorem main_blank_or_parse_witness :
    (main sampleEnv "  ".toList "KEY".toList).1 = 1 ∧
      requestedURLs (main sampleEnv "  ".toList "KEY".toList).2 = [] ∧
      ∃ rest, (main sampleEnv "refs.ris".toList "KEY".toList).2
        = prompts ++ (parseRISFile sampleEnv "refs.ris".toList "KEY".toList).2 ++ rest :=
  ⟨((main_blank_or_parse sampleEnv "  ".toList "KEY".toList).1 (Or.inl (by decide))).1,
   ((main_blank_or_parse sampleEnv "  ".toList "KEY".toList).1 (Or.inl (by decide))).2.2.2,
   ((main_blank_or_parse sampleEnv "refs.ris".toList "KEY".toList).2 (by decide)).1⟩

/-- C9 (amended) at `collisionSample`: C3 holds the title of the entry of
response 1 and was written twice, C4 the title of the third entry of
response 0 and was written once. -/
theorem collision_second_entry_witness :
    GetCellValue (fillSheet collisionSample) ⟨'C', 3⟩ = some "b0".toList ∧
      writeCount (fillSheet collisionSample) ⟨'C', 3⟩ = 2 ∧
      GetCellValue (fillSheet collisionSample) ⟨'C', 4⟩ = some "a2".toList ∧
      writeCount (fillSheet collisionSample) ⟨'C', 4⟩ = 1 :=
  have h := collision_second_entry
    (sampleResponse [sampleEntry "10.1/a0".toList "a0".toList,
      sampleEntry "10.1/a1".toList "a1".toList, sampleEntry "10.1/a2".toList "a2".toList])
    (sampleResponse [sampleEntry "10.1/b0".toList "b0".toList]) []
    (sampleEntry "10.1/a0".toList "a0".toList) (sampleEntry "10.1/a1".toList "a1".toList)
    (sampleEntry "10.1/a2".toList "a2".toList) (sampleEntry "10.1/b0".toList "b0".toList)
    rfl rfl
  ⟨(h.2.2.2.2.2.2.1 (⟨'C', 3⟩, "b0".toList) (by decide)).1,
   (h.2.2.2.2.2.2.1 (⟨'C', 3⟩, "b0".toList) (by decide)).2,
   (h.2.2.2.2.2.2.2.1 (⟨'C', 4⟩, "a2".toList) (by decide)).1,
   (h.2.2.2.2.2.2.2.1 (⟨'C', 4⟩, "a2".toList) (by decide)).2⟩

/-- C10 at `quoted.ris`: the lookup of `10.1/q` fails in the decoder and the
collection is empty. -/
theorem escape_breaks_json_witness :
    jsonValid quotedTitleBody = true ∧
      jsonValid (replaceXmlEscapes sampleEnv.html quotedTitleBody) = false ∧
      (parseRISFile sampleEnv "quoted.ris".toList "KEY".toList).1 = .ok GoSlice.nil :=
  have h := escape_breaks_json sampleEnv "quoted.ris".toList "10.1/q".toList "KEY".toList
    (by decide) (by decide)
    (fun text htext => ⟨"invalid JSON".toList, by
      show (if jsonValid text = true then _ else _) = _
      rw [htext]
      rfl⟩)
  ⟨h.2.1, h.2.2.2.1, h.2.2.2.2.2⟩

end Bydoi
